import Mathlib

/-!
# Elevator simulation (Group9_Elevator.cpp): embedding and properties

The C++ program keeps one `Elevator` object, a static passenger-id counter
(`Passenger::nextId`) and writes passenger lines to `cout`.  The embedding
below is a state-passing translation of the class:

* `int` values are modelled by `Int`.  Signed overflow is undefined in C++,
  so on every execution with defined behaviour the unbounded integers agree
  with the machine ones.
* `waitingPassengers` is an array of exactly `MAX_FLOORS` queues, hence a
  function on `Fin MAX_FLOORS`; indexing it with a floor outside `0..9` is
  undefined behaviour and makes the operation return `none`.
* `std::queue` and `std::vector` are lists (front of the queue = head).
* The mutex, the condition variable and the sleeps have no effect on the
  data; `main` registers every passenger before it starts the single worker
  thread, so the sequential reading is exact for the program as written.
* Of the text written to `cout` only the three passenger lines are kept, as
  `Event`s; the status screen of `displayStatus` is not recorded.
-/

namespace ElevatorSim

/-- Number of floors, ground (0) to 9th: `const int MAX_FLOORS = 10`. -/
abbrev MAX_FLOORS : Nat := 10

/-- Maximum people in the elevator: `const int MAX_CAPACITY = 9`. -/
abbrev MAX_CAPACITY : Nat := 9

/-- Travel direction: `enum Direction { UP, DOWN, IDLE }`. -/
inductive Direction where
  | UP
  | DOWN
  | IDLE
deriving DecidableEq, Repr

/-- The class `Passenger`: origin floor, destination floor and id. -/
structure Passenger where
  currentFloor : Int
  targetFloor : Int
  id : Int
deriving DecidableEq, Repr

/-- Passenger lines written to `cout`: "Added passenger", "getting off at
floor" and "boarding at floor ... going to floor". -/
inductive Event where
  | added (id fromFloor toFloor : Int)
  | gettingOff (id floor : Int)
  | boarding (id floor targetFloor : Int)
deriving DecidableEq, Repr

/-- The data members of class `Elevator`, together with the two pieces of
global state the class touches: the static counter `Passenger::nextId` and
the passenger lines written to `cout`. -/
structure Elevator where
  passengers : List Passenger
  waitingPassengers : Fin MAX_FLOORS → List Passenger
  currentFloor : Int
  direction : Direction
  running : Bool
  totalPassengers : Int
  processedPassengers : Int
  hasDestinationAbove : Bool
  hasDestinationBelow : Bool
  nextId : Int
  cout : List Event

/-- The constructor `Elevator(int startingFloor)`, at program start
(`Passenger::nextId = 1`, nothing written yet). -/
def newElevator (startingFloor : Int) : Elevator where
  passengers := []
  waitingPassengers := fun _ => []
  currentFloor := startingFloor
  direction := Direction.IDLE
  running := true
  totalPassengers := 0
  processedPassengers := 0
  hasDestinationAbove := false
  hasDestinationBelow := false
  nextId := 1
  cout := []

/-- Array index for a floor number; `none` outside `0 .. MAX_FLOORS - 1`,
where the C++ subscript is undefined. -/
def floorIndex (f : Int) : Option (Fin MAX_FLOORS) :=
  if h : 0 ≤ f ∧ f < (MAX_FLOORS : Int) then some ⟨f.toNat, by omega⟩ else none

/-- First loop of `updateDestinationFlags` (lines 53-56): the passengers in
the elevator.  The pair is `(hasDestinationAbove, hasDestinationBelow)`. -/
def scanPassengers (cur : Int) : List Passenger → Bool × Bool → Bool × Bool
  | [], flags => flags
  | p :: rest, (above, below) =>
    scanPassengers cur rest
      (if p.targetFloor > cur then true else above,
       if p.targetFloor < cur then true else below)

/-- Second loop of `updateDestinationFlags` (lines 59-64): the waiting
queues, over the floor indices still to be visited. -/
def scanWaiting (w : Fin MAX_FLOORS → List Passenger) (cur : Int) :
    List (Fin MAX_FLOORS) → Bool × Bool → Bool × Bool
  | [], flags => flags
  | i :: rest, (above, below) =>
    if (w i).isEmpty then scanWaiting w cur rest (above, below)
    else
      scanWaiting w cur rest
        (if ((i : Nat) : Int) > cur then true else above,
         if ((i : Nat) : Int) < cur then true else below)

/-- The method `Elevator::updateDestinationFlags`. -/
def updateDestinationFlags (s : Elevator) : Elevator :=
  let flags := scanWaiting s.waitingPassengers s.currentFloor (List.finRange MAX_FLOORS)
    (scanPassengers s.currentFloor s.passengers (false, false))
  { s with hasDestinationAbove := flags.1, hasDestinationBelow := flags.2 }

/-- The method `Elevator::determineDirection`: the returned direction and the
object with its flags refreshed. -/
def determineDirection (s : Elevator) : Direction × Elevator :=
  let s1 := updateDestinationFlags s
  let d : Direction :=
    match s1.direction with
    | Direction.UP =>
      if s1.hasDestinationAbove then Direction.UP
      else if s1.hasDestinationBelow then Direction.DOWN
      else Direction.IDLE
    | Direction.DOWN =>
      if s1.hasDestinationBelow then Direction.DOWN
      else if s1.hasDestinationAbove then Direction.UP
      else Direction.IDLE
    | Direction.IDLE =>
      if s1.hasDestinationBelow then Direction.DOWN
      else if s1.hasDestinationAbove then Direction.UP
      else Direction.IDLE
  (d, s1)

/-- The method `Elevator::addPassenger`.  The passenger is constructed with
id `nextId`, which is then incremented; the line printed shows
`Passenger::nextId - 1`. -/
def addPassenger (s : Elevator) (fromFloor toFloor : Int) : Option Elevator :=
  match floorIndex fromFloor with
  | none => none
  | some i =>
    let p : Passenger := { currentFloor := fromFloor, targetFloor := toFloor, id := s.nextId }
    let nextId := s.nextId + 1
    some { s with
      waitingPassengers := Function.update s.waitingPassengers i (s.waitingPassengers i ++ [p])
      nextId := nextId
      totalPassengers := s.totalPassengers + 1
      cout := s.cout ++ [Event.added (nextId - 1) fromFloor toFloor] }

/-- The method `Elevator::shouldStopAtFloor`. -/
def shouldStopAtFloor (s : Elevator) (floor : Int) : Option Bool :=
  if s.passengers.any (fun passenger => decide (passenger.targetFloor = floor)) then some true
  else
    match floorIndex floor with
    | none => none
    | some i =>
      match s.waitingPassengers i with
      | [] => some false
      | front :: _ =>
        if s.passengers.length < MAX_CAPACITY then
          if (s.direction = Direction.UP ∧ front.targetFloor > floor) ∨
              (s.direction = Direction.DOWN ∧ front.targetFloor < floor) ∨
              s.direction = Direction.IDLE then some true
          else some false
        else some false

/-- The method `Elevator::isSimulationComplete`. -/
def isSimulationComplete (s : Elevator) : Bool :=
  decide (s.processedPassengers ≥ s.totalPassengers) && s.passengers.isEmpty

/-- The erase loop of `run` (lines 159-169) over the passengers not yet
visited: the passengers kept, the counter and the lines written. -/
def disembarkLoop (cur : Int) :
    List Passenger → Int → List Event → List Passenger × Int × List Event
  | [], processed, out => ([], processed, out)
  | p :: rest, processed, out =>
    if p.targetFloor = cur then
      disembarkLoop cur rest (processed + 1) (out ++ [Event.gettingOff p.id cur])
    else
      let r := disembarkLoop cur rest processed out
      (p :: r.1, r.2.1, r.2.2)

/-- Lines 158-169 of `run`: passengers getting off. -/
def disembark (s : Elevator) : Elevator :=
  let r := disembarkLoop s.currentFloor s.passengers s.processedPassengers s.cout
  { s with passengers := r.1, processedPassengers := r.2.1, cout := r.2.2 }

/-- The pick-up loop of `run` (lines 172-186) on the queue of the current
floor: the queue left, the passengers on board and the lines written. -/
def boardLoop (cur : Int) (dir : Direction) :
    List Passenger → List Passenger → List Event →
      List Passenger × List Passenger × List Event
  | [], onboard, out => ([], onboard, out)
  | front :: rest, onboard, out =>
    if onboard.length < MAX_CAPACITY then
      if (dir = Direction.UP ∧ front.targetFloor > cur) ∨
          (dir = Direction.DOWN ∧ front.targetFloor < cur) ∨
          dir = Direction.IDLE then
        boardLoop cur dir rest (onboard ++ [front])
          (out ++ [Event.boarding front.id cur front.targetFloor])
      else (front :: rest, onboard, out)
    else (front :: rest, onboard, out)

/-- Lines 171-186 of `run`: picking up at the current floor, whose array
index is `i`. -/
def board (s : Elevator) (i : Fin MAX_FLOORS) : Elevator :=
  let r := boardLoop s.currentFloor s.direction (s.waitingPassengers i) s.passengers s.cout
  { s with
    waitingPassengers := Function.update s.waitingPassengers i r.1
    passengers := r.2.1
    cout := r.2.2 }

/-- Line 189 of `run`: `direction = determineDirection()`. -/
def redirect (s : Elevator) : Elevator :=
  let r := determineDirection s
  { r.2 with direction := r.1 }

/-- Lines 192-207 of `run`: moving the elevator (the sleeps left out). -/
def move (s : Elevator) : Elevator :=
  if s.direction ≠ Direction.IDLE then
    if s.direction = Direction.UP ∧ s.currentFloor < (MAX_FLOORS : Int) - 1 then
      { s with currentFloor := s.currentFloor + 1 }
    else if s.direction = Direction.DOWN ∧ s.currentFloor > 0 then
      { s with currentFloor := s.currentFloor - 1 }
    else s
  else s

/-- One execution of the body of the `while` loop of `run` (one tick). -/
def tick (s : Elevator) : Option Elevator :=
  let s1 := disembark s
  match floorIndex s1.currentFloor with
  | none => none
  | some i => some (move (redirect (board s1 i)))

/-- The condition of the `while` loop of `run`. -/
def loopCond (s : Elevator) : Bool :=
  s.running && !isSimulationComplete s

/-- Exactly `n` iterations of the loop of `run`, each entered with the loop
condition true; `none` if the loop has exited before, or on undefined
behaviour. -/
def runFor : Nat → Elevator → Option Elevator
  | 0, s => some s
  | n + 1, s => if loopCond s then (tick s).bind (runFor n) else none

/-- The method `Elevator::run`, with at most `fuel` iterations: the object
when the loop exits. -/
def run : Nat → Elevator → Option Elevator
  | 0, s => if loopCond s then none else some s
  | fuel + 1, s => if loopCond s then (tick s).bind (run fuel) else some s

/-- The registration loop of `main` (lines 286-298) on the validated pairs
`(fromFloor, toFloor)`. -/
def registerAll (s : Elevator) : List (Int × Int) → Option Elevator
  | [] => some s
  | (fromFloor, toFloor) :: rest => (addPassenger s fromFloor toFloor).bind (fun s1 => registerAll s1 rest)

/-! ## Definitions used to state the properties -/

/-- The spec's `aboveExists`: some onboard destination above the current
floor, or a non-empty waiting queue at a floor above it. -/
def aboveExists (s : Elevator) : Prop :=
  (∃ p ∈ s.passengers, p.targetFloor > s.currentFloor) ∨
    (∃ i : Fin MAX_FLOORS, ((i : Nat) : Int) > s.currentFloor ∧ s.waitingPassengers i ≠ [])

/-- The spec's `belowExists`: the same with `<`. -/
def belowExists (s : Elevator) : Prop :=
  (∃ p ∈ s.passengers, p.targetFloor < s.currentFloor) ∨
    (∃ i : Fin MAX_FLOORS, ((i : Nat) : Int) < s.currentFloor ∧ s.waitingPassengers i ≠ [])

instance instDecidableAboveExists (s : Elevator) : Decidable (aboveExists s) := by
  unfold aboveExists; infer_instance

instance instDecidableBelowExists (s : Elevator) : Decidable (belowExists s) := by
  unfold belowExists; infer_instance

/-- The decision table of the spec's direction policy (section 4.2), from
the current direction and the two flags. -/
def decisionTable (d : Direction) (above below : Bool) : Direction :=
  match d with
  | Direction.UP =>
    if above then Direction.UP else if below then Direction.DOWN else Direction.IDLE
  | Direction.DOWN =>
    if below then Direction.DOWN else if above then Direction.UP else Direction.IDLE
  | Direction.IDLE =>
    if below then Direction.DOWN else if above then Direction.UP else Direction.IDLE

/-- States the program can be in at the top of the loop of `run`: the
constructor, then the registrations of `main`, then iterations of the loop. -/
def Reachable (startingFloor : Int) (s : Elevator) : Prop :=
  ∃ (regs : List (Int × Int)) (n : Nat) (s0 : Elevator),
    registerAll (newElevator startingFloor) regs = some s0 ∧ runFor n s0 = some s

/-- The program up to the `n`-th iteration of the loop: constructor,
registrations, `n` iterations. -/
def simulate (startingFloor : Int) (regs : List (Int × Int)) (n : Nat) : Option Elevator :=
  (registerAll (newElevator startingFloor) regs).bind (runFor n)

/-- The program of `main` with at most `fuel` iterations of the loop:
constructor, registrations, `run`. -/
def mainRun (startingFloor : Int) (regs : List (Int × Int)) (fuel : Nat) : Option Elevator :=
  (registerAll (newElevator startingFloor) regs).bind (run fuel)

/-- Sum of the sizes of the ten waiting queues. -/
def waitingCount (s : Elevator) : Nat :=
  ((List.finRange MAX_FLOORS).map (fun i => (s.waitingPassengers i).length)).sum

/-- The passenger ids found in the ten waiting queues (floor 0 first)
followed by those of the onboard list. -/
def locatedIds (s : Elevator) : List Int :=
  ((List.finRange MAX_FLOORS).map
      (fun i => (s.waitingPassengers i).map Passenger.id)).flatten ++
    s.passengers.map Passenger.id

/-- The ids in the "Added passenger" lines of an output. -/
def addedIds (out : List Event) : List Int :=
  out.filterMap (fun e =>
    match e with
    | Event.added id _ _ => some id
    | _ => none)

/-- The ids in the "getting off" lines of an output. -/
def gettingOffIds (out : List Event) : List Int :=
  out.filterMap (fun e =>
    match e with
    | Event.gettingOff id _ => some id
    | _ => none)

/-- The ids in the "boarding" lines of an output. -/
def boardingIds (out : List Event) : List Int :=
  out.filterMap (fun e =>
    match e with
    | Event.boarding id _ _ => some id
    | _ => none)

/-- Ids of the passengers registered so far. -/
def registeredIds (s : Elevator) : List Int := addedIds s.cout

/-- Ids of the passengers that have got off so far. -/
def disembarkedIds (s : Elevator) : List Int := gettingOffIds s.cout

/-- The waiting queues after registering (2→7) and (5→3): passenger 1 at
floor 2, passenger 2 at floor 5. -/
def queuesTwoFive : Fin MAX_FLOORS → List Passenger :=
  fun i =>
    if i = 2 then [{ currentFloor := 2, targetFloor := 7, id := 1 }]
    else if i = 5 then [{ currentFloor := 5, targetFloor := 3, id := 2 }]
    else []

/-- The states the run from floor 3 with (2→7) and (5→3) stays in: nobody on
board, nobody processed, both passengers still queued, and the car between
floors 2 and 5. -/
def StuckTwoFive (s : Elevator) : Prop :=
  s.passengers = [] ∧ s.running = true ∧ s.processedPassengers = 0 ∧
    s.totalPassengers = 2 ∧ s.waitingPassengers = queuesTwoFive ∧
    ((s.direction = Direction.IDLE ∧ s.currentFloor = 3) ∨
      (s.direction = Direction.UP ∧ 3 ≤ s.currentFloor ∧ s.currentFloor ≤ 5) ∨
      (s.direction = Direction.DOWN ∧ 2 ≤ s.currentFloor ∧ s.currentFloor ≤ 4))

/-- The waiting queues of scenario B: passenger 1 (0→9) at floor 0,
passenger 2 (9→0) at floor 9. -/
def queuesScenarioB : Fin MAX_FLOORS → List Passenger :=
  fun i =>
    if i = 0 then [{ currentFloor := 0, targetFloor := 9, id := 1 }]
    else if i = 9 then [{ currentFloor := 9, targetFloor := 0, id := 2 }]
    else []

/-- The states the run of scenario B stays in: nobody on board, nothing
written but the two registrations, both passengers still queued. -/
def StuckScenarioB (s : Elevator) : Prop :=
  s.passengers = [] ∧ s.running = true ∧ s.processedPassengers = 0 ∧
    s.totalPassengers = 2 ∧ s.waitingPassengers = queuesScenarioB ∧
    s.cout = [Event.added 1 0 9, Event.added 2 9 0] ∧
    ((s.direction = Direction.IDLE ∧ s.currentFloor = 5) ∨
      (s.direction = Direction.UP ∧ 1 ≤ s.currentFloor ∧ s.currentFloor ≤ 9) ∨
      (s.direction = Direction.DOWN ∧ 0 ≤ s.currentFloor ∧ s.currentFloor ≤ 8))

/-- The pick-up loop of `run` takes nobody from queue `q`: the queue is
empty, or its front passenger is not compatible with direction `dir` at
floor `cur`. -/
def frontBlocked (cur : Int) (dir : Direction) (q : List Passenger) : Bool :=
  match q with
  | [] => true
  | front :: _ =>
    !decide ((dir = Direction.UP ∧ front.targetFloor > cur) ∨
      (dir = Direction.DOWN ∧ front.targetFloor < cur) ∨ dir = Direction.IDLE)

/-- Floor and direction after an iteration of the loop in which the car is
empty and nobody boards, with waiting queues `w`: the direction of the
decision table, then the move of lines 198-202. -/
def emptyCarStep (w : Fin MAX_FLOORS → List Passenger) (cur : Int) (dir : Direction) :
    Int × Direction :=
  let d := decisionTable dir
    (decide (∃ i : Fin MAX_FLOORS, ((i : Nat) : Int) > cur ∧ w i ≠ []))
    (decide (∃ i : Fin MAX_FLOORS, ((i : Nat) : Int) < cur ∧ w i ≠ []))
  (if d = Direction.UP ∧ cur < 9 then cur + 1
    else if d = Direction.DOWN ∧ cur > 0 then cur - 1
    else cur, d)

/-- The pairs (id, floor) of the "boarding" lines of an output. -/
def boardingsAt (out : List Event) : List (Int × Int) :=
  out.filterMap (fun e =>
    match e with
    | Event.boarding id floor _ => some (id, floor)
    | _ => none)

/-- The pairs (id, floor) of the "getting off" lines of an output. -/
def gettingOffAt (out : List Event) : List (Int × Int) :=
  out.filterMap (fun e =>
    match e with
    | Event.gettingOff id floor => some (id, floor)
    | _ => none)

/-- Number of iterations of the loop in scenario C with `n` passengers
(`10 ≤ n ≤ 20`): two trips to floor 9 for up to 18 passengers, three beyond. -/
def scenarioCIterations (n : Nat) : Nat := if n ≤ 18 then 29 else 48

/-- Scenario B before the loop starts: floor 5, IDLE, passenger 1 (0→9)
queued at floor 0 and passenger 2 (9→0) queued at floor 9. -/
def scenarioBStart : Elevator :=
  (simulate 5 [(0, 9), (9, 0)] 0).getD (newElevator 5)

/-- Scenario C with ten passengers after the first iteration: nine on
board, the car at floor 1 heading UP. -/
def scenarioCFirstStop : Elevator :=
  (simulate 0 (List.replicate 10 (0, 9)) 1).getD (newElevator 0)

/-- Scenario C with ten passengers after ten iterations: nine passengers
have got off at floor 9, the tenth is still queued at floor 0. -/
def scenarioCFirstTrip : Elevator :=
  (simulate 0 (List.replicate 10 (0, 9)) 10).getD (newElevator 0)

/-- What is observed of a state: the fields of the status screen, whether the
simulation is complete, and the passenger lines written so far. -/
structure Snapshot where
  currentFloor : Int
  direction : Direction
  passengers : List Passenger
  waiting : List (List Passenger)
  processedPassengers : Int
  totalPassengers : Int
  complete : Bool
  cout : List Event
deriving DecidableEq

/-- The snapshot of a state; `waiting` lists the ten queues, floor 0 first. -/
def snapshot (s : Elevator) : Snapshot where
  currentFloor := s.currentFloor
  direction := s.direction
  passengers := s.passengers
  waiting := (List.finRange MAX_FLOORS).map s.waitingPassengers
  processedPassengers := s.processedPassengers
  totalPassengers := s.totalPassengers
  complete := isSimulationComplete s
  cout := s.cout

/-- The states after 1, 2, ... iterations of the loop of `run`, up to `n`
iterations; the list ends early when the loop exits. -/
def runTrace : Nat → Elevator → List Elevator
  | 0, _ => []
  | n + 1, s =>
    if loopCond s then
      match tick s with
      | none => []
      | some s1 => s1 :: runTrace n s1
    else []

/-- Scenario A from floor `f` to floor `d`: the snapshot expected after
`k + 1` iterations while the passenger travels. -/
def scenarioATravel (f d : Int) (k : Nat) : Snapshot where
  currentFloor := f + ((k + 1 : Nat) : Int) * Int.sign (d - f)
  direction := if d > f then Direction.UP else Direction.DOWN
  passengers := [{ currentFloor := f, targetFloor := d, id := 1 }]
  waiting := List.replicate MAX_FLOORS []
  processedPassengers := 0
  totalPassengers := 1
  complete := false
  cout := [Event.added 1 f d, Event.boarding 1 f d]

/-- Scenario A from floor `f` to floor `d`: the snapshot expected when the
loop exits. -/
def scenarioAFinal (f d : Int) : Snapshot where
  currentFloor := d
  direction := Direction.IDLE
  passengers := []
  waiting := List.replicate MAX_FLOORS []
  processedPassengers := 1
  totalPassengers := 1
  complete := true
  cout := [Event.added 1 f d, Event.boarding 1 f d, Event.gettingOff 1 d]

/-- Scenario C: passengers `a, a+1, ..., a+len-1`, all registered (0→9). -/
def scenarioCPassengers (a len : Nat) : List Passenger :=
  (List.range' a len).map (fun k => { currentFloor := 0, targetFloor := 9, id := (k : Int) })

/-- Scenario C: the lines of one trip: the passengers board at floor 0 and
get off at floor 9. -/
def scenarioCTrip (a len : Nat) : List Event :=
  (scenarioCPassengers a len).map (fun p => Event.boarding p.id 0 p.targetFloor) ++
    (scenarioCPassengers a len).map (fun p => Event.gettingOff p.id 9)

/-- Scenario C with `n` passengers: the snapshot expected after the first
iteration. -/
def scenarioCFirst (n : Nat) : Snapshot where
  currentFloor := 1
  direction := Direction.UP
  passengers := scenarioCPassengers 1 9
  waiting := scenarioCPassengers 10 (n - 9) :: List.replicate 9 []
  processedPassengers := 0
  totalPassengers := n
  complete := false
  cout := (List.range' 1 n).map (fun k => Event.added (k : Int) 0 9) ++
    (scenarioCPassengers 1 9).map (fun p => Event.boarding p.id 0 p.targetFloor)

/-- Scenario C with `n` passengers: the snapshot expected when the loop
exits, after trips of nine passengers at a time. -/
def scenarioCFinal (n : Nat) : Snapshot where
  currentFloor := 9
  direction := Direction.IDLE
  passengers := []
  waiting := List.replicate MAX_FLOORS []
  processedPassengers := n
  totalPassengers := n
  complete := true
  cout := (List.range' 1 n).map (fun k => Event.added (k : Int) 0 9) ++
    scenarioCTrip 1 9 ++ scenarioCTrip 10 (min (n - 9) 9) ++ scenarioCTrip 19 (n - 18)

/-- The spec's direction compatibility of a waiting passenger: destination
above the floor when the car's direction is UP, below it when DOWN, any
passenger when IDLE. -/
def directionCompatible (dir : Direction) (floor : Int) (p : Passenger) : Prop :=
  (dir = Direction.UP → p.targetFloor > floor) ∧
    (dir = Direction.DOWN → p.targetFloor < floor)

instance instDecidableDirectionCompatible (dir : Direction) (floor : Int) (p : Passenger) :
    Decidable (directionCompatible dir floor p) := by
  unfold directionCompatible; infer_instance

/-- The spec's stop eligibility (section 4.3): (a) an onboard destination
equal to `floor`, or (b) a non-empty queue `q` at `floor`, room on board and
a direction-compatible front passenger. -/
def mustStopAt (s : Elevator) (floor : Int) (q : List Passenger) : Prop :=
  (∃ p ∈ s.passengers, p.targetFloor = floor) ∨
    (q ≠ [] ∧ s.passengers.length < 9 ∧
      ∀ front ∈ q.head?, directionCompatible s.direction floor front)

/-- Registrations as `main` validates them: both floors in 0..9. -/
def ValidRegistrations (regs : List (Int × Int)) : Prop :=
  ∀ r ∈ regs, 0 ≤ r.1 ∧ r.1 ≤ 9 ∧ 0 ≤ r.2 ∧ r.2 ≤ 9

instance instDecidableValidRegistrations (regs : List (Int × Int)) :
    Decidable (ValidRegistrations regs) := by
  unfold ValidRegistrations; infer_instance

/-- States reachable by valid registrations (floors in 0..9) followed by
iterations of the loop. -/
def ReachableValid (startingFloor : Int) (s : Elevator) : Prop :=
  ∃ (regs : List (Int × Int)) (n : Nat),
    ValidRegistrations regs ∧ simulate startingFloor regs n = some s

/-- Scenario A (one passenger 0→5 from floor 0) when the loop exits. -/
def scenarioAEnd : Elevator :=
  (simulate 0 [(0, 5)] 6).getD (newElevator 0)

/-- Every passenger in the car or in a waiting queue has a destination in
0..9. -/
def TargetsValid (s : Elevator) : Prop :=
  (∀ p ∈ s.passengers, 0 ≤ p.targetFloor ∧ p.targetFloor ≤ 9) ∧
    ∀ i : Fin MAX_FLOORS, ∀ p ∈ s.waitingPassengers i, 0 ≤ p.targetFloor ∧ p.targetFloor ≤ 9

/-- Scenario C with ten passengers before the loop starts: all ten queued at
floor 0, the car at floor 0 and IDLE. -/
def scenarioCStart : Elevator :=
  (simulate 0 (List.replicate 10 (0, 9)) 0).getD (newElevator 0)

/-! ## Lemmas on the single steps -/

theorem scanPassengers_eq (cur : Int) (ps : List Passenger) (a b : Bool) :
    scanPassengers cur ps (a, b) =
      (a || ps.any (fun p => decide (p.targetFloor > cur)),
       b || ps.any (fun p => decide (p.targetFloor < cur))) := by
  induction ps generalizing a b with
  | nil => simp [scanPassengers]
  | cons p rest ih =>
    simp only [scanPassengers, ih, List.any_cons]
    by_cases h1 : p.targetFloor > cur <;> by_cases h2 : p.targetFloor < cur <;>
      simp [h1, h2]

theorem scanWaiting_eq (w : Fin MAX_FLOORS → List Passenger) (cur : Int)
    (l : List (Fin MAX_FLOORS)) (a b : Bool) :
    scanWaiting w cur l (a, b) =
      (a || l.any (fun i => !(w i).isEmpty && decide (((i : Nat) : Int) > cur)),
       b || l.any (fun i => !(w i).isEmpty && decide (((i : Nat) : Int) < cur))) := by
  induction l generalizing a b with
  | nil => simp [scanWaiting]
  | cons i rest ih =>
    simp only [scanWaiting, List.any_cons]
    by_cases he : (w i).isEmpty
    · simp [he, ih]
    · by_cases h1 : ((i : Nat) : Int) > cur <;> by_cases h2 : ((i : Nat) : Int) < cur <;>
        simp [he, ih, h1, h2]

theorem updateDestinationFlags_above (s : Elevator) :
    (updateDestinationFlags s).hasDestinationAbove = decide (aboveExists s) := by
  simp only [updateDestinationFlags, scanPassengers_eq, scanWaiting_eq, aboveExists]
  rw [Bool.eq_iff_iff]
  simp [List.any_eq_true, List.isEmpty_iff]
  constructor
  · rintro (⟨p, hp, h⟩ | ⟨i, hi, h⟩)
    · exact Or.inl ⟨p, hp, h⟩
    · exact Or.inr ⟨i, h, hi⟩
  · rintro (⟨p, hp, h⟩ | ⟨i, hi, h⟩)
    · exact Or.inl ⟨p, hp, h⟩
    · exact Or.inr ⟨i, h, hi⟩

theorem updateDestinationFlags_below (s : Elevator) :
    (updateDestinationFlags s).hasDestinationBelow = decide (belowExists s) := by
  simp only [updateDestinationFlags, scanPassengers_eq, scanWaiting_eq, belowExists]
  rw [Bool.eq_iff_iff]
  simp [List.any_eq_true, List.isEmpty_iff]
  constructor
  · rintro (⟨p, hp, h⟩ | ⟨i, hi, h⟩)
    · exact Or.inl ⟨p, hp, h⟩
    · exact Or.inr ⟨i, h, hi⟩
  · rintro (⟨p, hp, h⟩ | ⟨i, hi, h⟩)
    · exact Or.inl ⟨p, hp, h⟩
    · exact Or.inr ⟨i, h, hi⟩

theorem determineDirection_fst (s : Elevator) :
    (determineDirection s).1 =
      decisionTable s.direction (decide (aboveExists s)) (decide (belowExists s)) := by
  have ha := updateDestinationFlags_above s
  have hb := updateDestinationFlags_below s
  have hd : (updateDestinationFlags s).direction = s.direction := rfl
  simp only [determineDirection, decisionTable, ha, hb, hd]

theorem determineDirection_snd (s : Elevator) :
    (determineDirection s).2 = updateDestinationFlags s := rfl

theorem aboveExists_update_current (s : Elevator) (i : Fin MAX_FLOORS) (q : List Passenger)
    (hi : ((i : Nat) : Int) = s.currentFloor) :
    aboveExists { s with waitingPassengers := Function.update s.waitingPassengers i q } ↔
      aboveExists s := by
  unfold aboveExists
  apply or_congr Iff.rfl
  constructor
  · rintro ⟨j, hj, hne⟩
    have hji : j ≠ i := by
      rintro rfl
      simp only at hj
      omega
    refine ⟨j, hj, ?_⟩
    simpa [Function.update_noteq hji] using hne
  · rintro ⟨j, hj, hne⟩
    have hji : j ≠ i := by
      rintro rfl
      omega
    refine ⟨j, hj, ?_⟩
    simpa [Function.update_noteq hji] using hne

theorem belowExists_update_current (s : Elevator) (i : Fin MAX_FLOORS) (q : List Passenger)
    (hi : ((i : Nat) : Int) = s.currentFloor) :
    belowExists { s with waitingPassengers := Function.update s.waitingPassengers i q } ↔
      belowExists s := by
  unfold belowExists
  apply or_congr Iff.rfl
  constructor
  · rintro ⟨j, hj, hne⟩
    have hji : j ≠ i := by
      rintro rfl
      simp only at hj
      omega
    refine ⟨j, hj, ?_⟩
    simpa [Function.update_noteq hji] using hne
  · rintro ⟨j, hj, hne⟩
    have hji : j ≠ i := by
      rintro rfl
      omega
    refine ⟨j, hj, ?_⟩
    simpa [Function.update_noteq hji] using hne

/-- C1. `determineDirection` implements the decision table of the direction
policy: the two flags it computes are the spec's `aboveExists` and
`belowExists`, the direction returned is the table's entry for the current
direction and these flags, and replacing the waiting queue of the current
floor by any other queue changes neither the flags nor the result. -/
theorem determineDirection_decision_table (s : Elevator) :
    (determineDirection s).1 =
        decisionTable s.direction (decide (aboveExists s)) (decide (belowExists s)) ∧
      (determineDirection s).2.hasDestinationAbove = decide (aboveExists s) ∧
      (determineDirection s).2.hasDestinationBelow = decide (belowExists s) ∧
      ∀ (i : Fin MAX_FLOORS) (q : List Passenger), ((i : Nat) : Int) = s.currentFloor →
        (determineDirection
            { s with waitingPassengers := Function.update s.waitingPassengers i q }).1 =
          (determineDirection s).1 ∧
        (determineDirection
            { s with waitingPassengers := Function.update s.waitingPassengers i q }).2.hasDestinationAbove =
          (determineDirection s).2.hasDestinationAbove ∧
        (determineDirection
            { s with waitingPassengers := Function.update s.waitingPassengers i q }).2.hasDestinationBelow =
          (determineDirection s).2.hasDestinationBelow := by
  refine ⟨determineDirection_fst s, updateDestinationFlags_above s,
    updateDestinationFlags_below s, ?_⟩
  intro i q hi
  have ha := aboveExists_update_current s i q hi
  have hb := belowExists_update_current s i q hi
  simp only [determineDirection_fst, determineDirection_snd, updateDestinationFlags_above,
    updateDestinationFlags_below, decide_eq_decide.mpr ha, decide_eq_decide.mpr hb]
  exact ⟨trivial, trivial, trivial⟩

theorem floorIndex_some_of_range (f : Int) (h0 : 0 ≤ f) (h1 : f < 10) :
    ∃ i : Fin MAX_FLOORS, floorIndex f = some i ∧ ((i : Nat) : Int) = f := by
  have h : 0 ≤ f ∧ f < (MAX_FLOORS : Int) := ⟨h0, by simpa using h1⟩
  refine ⟨⟨f.toNat, by omega⟩, ?_, ?_⟩
  · simp only [floorIndex, dif_pos h]
  · simp only
    omega

theorem floorIndex_eq_some (f : Int) (i : Fin MAX_FLOORS) (h : floorIndex f = some i) :
    ((i : Nat) : Int) = f ∧ 0 ≤ f ∧ f < 10 := by
  unfold floorIndex at h
  split at h
  · rename_i hr
    simp only [Option.some.injEq] at h
    subst h
    simp only [Nat.cast_ofNat] at hr
    refine ⟨?_, hr.1, hr.2⟩
    simp only
    omega
  · exact absurd h (by simp)

theorem disembarkLoop_fst (cur : Int) (ps : List Passenger) (pr : Int) (out : List Event) :
    (disembarkLoop cur ps pr out).1 = ps.filter (fun p => decide (p.targetFloor ≠ cur)) := by
  induction ps generalizing pr out with
  | nil => rfl
  | cons p rest ih =>
    by_cases h : p.targetFloor = cur
    · simp [disembarkLoop, h, ih]
    · simp [disembarkLoop, h, ih]

theorem boardLoop_split (cur : Int) (dir : Direction) (q onboard : List Passenger)
    (out : List Event) :
    ∃ k : Nat, (boardLoop cur dir q onboard out).2.1 = onboard ++ q.take k ∧
      (boardLoop cur dir q onboard out).1 = q.drop k := by
  induction q generalizing onboard out with
  | nil => exact ⟨0, by simp [boardLoop]⟩
  | cons front rest ih =>
    unfold boardLoop
    split
    · split
      · obtain ⟨k, h1, h2⟩ := ih (onboard ++ [front])
          (out ++ [Event.boarding front.id cur front.targetFloor])
        exact ⟨k + 1, by simp [h1], by simp [h2]⟩
      · exact ⟨0, by simp⟩
    · exact ⟨0, by simp⟩

@[simp] theorem disembark_currentFloor (s : Elevator) :
    (disembark s).currentFloor = s.currentFloor := rfl
@[simp] theorem disembark_direction (s : Elevator) :
    (disembark s).direction = s.direction := rfl
@[simp] theorem disembark_waitingPassengers (s : Elevator) :
    (disembark s).waitingPassengers = s.waitingPassengers := rfl
@[simp] theorem disembark_totalPassengers (s : Elevator) :
    (disembark s).totalPassengers = s.totalPassengers := rfl
@[simp] theorem disembark_running (s : Elevator) :
    (disembark s).running = s.running := rfl
@[simp] theorem disembark_nextId (s : Elevator) :
    (disembark s).nextId = s.nextId := rfl
theorem disembark_passengers (s : Elevator) :
    (disembark s).passengers =
      s.passengers.filter (fun p => decide (p.targetFloor ≠ s.currentFloor)) :=
  disembarkLoop_fst _ _ _ _

@[simp] theorem board_currentFloor (s : Elevator) (i : Fin MAX_FLOORS) :
    (board s i).currentFloor = s.currentFloor := rfl
@[simp] theorem board_direction (s : Elevator) (i : Fin MAX_FLOORS) :
    (board s i).direction = s.direction := rfl
@[simp] theorem board_totalPassengers (s : Elevator) (i : Fin MAX_FLOORS) :
    (board s i).totalPassengers = s.totalPassengers := rfl
@[simp] theorem board_processedPassengers (s : Elevator) (i : Fin MAX_FLOORS) :
    (board s i).processedPassengers = s.processedPassengers := rfl
@[simp] theorem board_running (s : Elevator) (i : Fin MAX_FLOORS) :
    (board s i).running = s.running := rfl
@[simp] theorem board_nextId (s : Elevator) (i : Fin MAX_FLOORS) :
    (board s i).nextId = s.nextId := rfl
theorem board_waitingPassengers_of_ne (s : Elevator) (i j : Fin MAX_FLOORS) (h : j ≠ i) :
    (board s i).waitingPassengers j = s.waitingPassengers j := by
  simp [board, Function.update_noteq h]

@[simp] theorem redirect_passengers (s : Elevator) :
    (redirect s).passengers = s.passengers := rfl
@[simp] theorem redirect_waitingPassengers (s : Elevator) :
    (redirect s).waitingPassengers = s.waitingPassengers := rfl
@[simp] theorem redirect_currentFloor (s : Elevator) :
    (redirect s).currentFloor = s.currentFloor := rfl
@[simp] theorem redirect_running (s : Elevator) :
    (redirect s).running = s.running := rfl
@[simp] theorem redirect_totalPassengers (s : Elevator) :
    (redirect s).totalPassengers = s.totalPassengers := rfl
@[simp] theorem redirect_processedPassengers (s : Elevator) :
    (redirect s).processedPassengers = s.processedPassengers := rfl
@[simp] theorem redirect_nextId (s : Elevator) :
    (redirect s).nextId = s.nextId := rfl
@[simp] theorem redirect_cout (s : Elevator) :
    (redirect s).cout = s.cout := rfl
theorem redirect_direction (s : Elevator) :
    (redirect s).direction =
      decisionTable s.direction (decide (aboveExists s)) (decide (belowExists s)) :=
  determineDirection_fst s

@[simp] theorem move_passengers (s : Elevator) : (move s).passengers = s.passengers := by
  unfold move; split_ifs <;> rfl
@[simp] theorem move_waitingPassengers (s : Elevator) :
    (move s).waitingPassengers = s.waitingPassengers := by
  unfold move; split_ifs <;> rfl
@[simp] theorem move_direction (s : Elevator) : (move s).direction = s.direction := by
  unfold move; split_ifs <;> rfl
@[simp] theorem move_running (s : Elevator) : (move s).running = s.running := by
  unfold move; split_ifs <;> rfl
@[simp] theorem move_totalPassengers (s : Elevator) :
    (move s).totalPassengers = s.totalPassengers := by
  unfold move; split_ifs <;> rfl
@[simp] theorem move_processedPassengers (s : Elevator) :
    (move s).processedPassengers = s.processedPassengers := by
  unfold move; split_ifs <;> rfl
@[simp] theorem move_nextId (s : Elevator) : (move s).nextId = s.nextId := by
  unfold move; split_ifs <;> rfl
@[simp] theorem move_cout (s : Elevator) : (move s).cout = s.cout := by
  unfold move; split_ifs <;> rfl

theorem move_currentFloor (s : Elevator) :
    (move s).currentFloor =
      if s.direction = Direction.UP ∧ s.currentFloor < 9 then s.currentFloor + 1
      else if s.direction = Direction.DOWN ∧ s.currentFloor > 0 then s.currentFloor - 1
      else s.currentFloor := by
  unfold move
  cases hd : s.direction <;> simp <;> split_ifs <;> rfl

theorem tick_eq (s : Elevator) (i : Fin MAX_FLOORS) (h : floorIndex s.currentFloor = some i) :
    tick s = some (move (redirect (board (disembark s) i))) := by
  simp [tick, h]

theorem aboveExists_board_disembark (s : Elevator) (i : Fin MAX_FLOORS)
    (hi : ((i : Nat) : Int) = s.currentFloor) (h : aboveExists s) :
    aboveExists (board (disembark s) i) := by
  rcases h with ⟨p, hp, hgt⟩ | ⟨j, hj, hne⟩
  · left
    refine ⟨p, ?_, hgt⟩
    obtain ⟨k, hk, -⟩ := boardLoop_split (disembark s).currentFloor (disembark s).direction
      ((disembark s).waitingPassengers i) (disembark s).passengers (disembark s).cout
    show p ∈ (boardLoop _ _ _ _ _).2.1
    rw [hk, disembark_passengers]
    apply List.mem_append_left
    simp only [List.mem_filter, decide_eq_true_eq]
    exact ⟨hp, by omega⟩
  · right
    have hji : j ≠ i := by
      rintro rfl
      omega
    exact ⟨j, hj, by rw [board_waitingPassengers_of_ne _ _ _ hji]; exact hne⟩

theorem belowExists_board_disembark (s : Elevator) (i : Fin MAX_FLOORS)
    (hi : ((i : Nat) : Int) = s.currentFloor) (h : belowExists s) :
    belowExists (board (disembark s) i) := by
  rcases h with ⟨p, hp, hgt⟩ | ⟨j, hj, hne⟩
  · left
    refine ⟨p, ?_, hgt⟩
    obtain ⟨k, hk, -⟩ := boardLoop_split (disembark s).currentFloor (disembark s).direction
      ((disembark s).waitingPassengers i) (disembark s).passengers (disembark s).cout
    show p ∈ (boardLoop _ _ _ _ _).2.1
    rw [hk, disembark_passengers]
    apply List.mem_append_left
    simp only [List.mem_filter, decide_eq_true_eq]
    exact ⟨hp, by omega⟩
  · right
    have hji : j ≠ i := by
      rintro rfl
      omega
    exact ⟨j, hj, by rw [board_waitingPassengers_of_ne _ _ _ hji]; exact hne⟩

/-- C2. Idle tie-break at tick level: from a state with direction IDLE, the
current floor in 0..9, a non-empty waiting queue at some floor above and a
non-empty waiting queue at some floor below, one iteration of the control
loop is defined and leaves the direction DOWN and the current floor one
lower. -/
theorem tick_idle_tie_break (s : Elevator) (hdir : s.direction = Direction.IDLE)
    (hlo : 0 ≤ s.currentFloor) (hhi : s.currentFloor ≤ 9)
    (habove : ∃ i : Fin MAX_FLOORS, ((i : Nat) : Int) > s.currentFloor ∧
      s.waitingPassengers i ≠ [])
    (hbelow : ∃ i : Fin MAX_FLOORS, ((i : Nat) : Int) < s.currentFloor ∧
      s.waitingPassengers i ≠ []) :
    ∃ s1, tick s = some s1 ∧ s1.direction = Direction.DOWN ∧
      s1.currentFloor = s.currentFloor - 1 := by
  obtain ⟨i, hi, hic⟩ := floorIndex_some_of_range s.currentFloor hlo (by omega)
  have hb : belowExists (board (disembark s) i) :=
    belowExists_board_disembark s i hic (Or.inr hbelow)
  have hpos : 0 < s.currentFloor := by
    obtain ⟨j, hj, -⟩ := hbelow
    omega
  have hd : (redirect (board (disembark s) i)).direction = Direction.DOWN := by
    rw [redirect_direction]
    simp [decisionTable, hdir, hb]
  refine ⟨_, tick_eq s i hi, ?_, ?_⟩
  · simpa using hd
  · rw [move_currentFloor, hd]
    simp [hpos]

/-! ## Sums over the ten queues -/

theorem sum_map_update_of_not_mem {n : Nat} (f : List Passenger → Nat)
    (w : Fin n → List Passenger) (i : Fin n) (q : List Passenger) (l : List (Fin n))
    (hi : i ∉ l) :
    (l.map (fun j => f (Function.update w i q j))).sum = (l.map (fun j => f (w j))).sum := by
  induction l with
  | nil => rfl
  | cons a rest ih =>
    have ha : a ≠ i := fun h => hi (by simp [h])
    have hr : i ∉ rest := fun h => hi (by simp [h])
    simp [Function.update_noteq ha, ih hr]

theorem sum_map_update_of_mem {n : Nat} (f : List Passenger → Nat)
    (w : Fin n → List Passenger) (i : Fin n) (q : List Passenger) (l : List (Fin n))
    (hnd : l.Nodup) (hi : i ∈ l) :
    (l.map (fun j => f (Function.update w i q j))).sum + f (w i) =
      (l.map (fun j => f (w j))).sum + f q := by
  induction l with
  | nil => simp at hi
  | cons a rest ih =>
    rw [List.nodup_cons] at hnd
    by_cases ha : a = i
    · subst ha
      have := sum_map_update_of_not_mem f w a q rest hnd.1
      simp only [List.map_cons, List.sum_cons, Function.update_same, this]
      omega
    · have hr : i ∈ rest := by
        rcases List.mem_cons.mp hi with h | h
        · exact absurd h.symm ha
        · exact h
      have := ih hnd.2 hr
      simp only [List.map_cons, List.sum_cons, Function.update_noteq ha]
      omega

theorem sum_finRange_update (f : List Passenger → Nat)
    (w : Fin MAX_FLOORS → List Passenger) (i : Fin MAX_FLOORS) (q : List Passenger) :
    ((List.finRange MAX_FLOORS).map (fun j => f (Function.update w i q j))).sum + f (w i) =
      ((List.finRange MAX_FLOORS).map (fun j => f (w j))).sum + f q :=
  sum_map_update_of_mem f w i q _ (List.nodup_finRange _) (List.mem_finRange i)

theorem count_locatedIds (x : Int) (s : Elevator) :
    (locatedIds s).count x =
      ((List.finRange MAX_FLOORS).map
        (fun i => ((s.waitingPassengers i).map Passenger.id).count x)).sum +
      (s.passengers.map Passenger.id).count x := by
  simp [locatedIds, List.count_append, List.count_flatten, Function.comp_def]

/-! ## The two loops of a tick -/

theorem disembarkLoop_processed (cur : Int) (ps : List Passenger) (pr : Int)
    (out : List Event) :
    (disembarkLoop cur ps pr out).2.1 =
      pr + ((ps.filter (fun p => decide (p.targetFloor = cur))).length : Int) := by
  induction ps generalizing pr out with
  | nil => simp [disembarkLoop]
  | cons p rest ih =>
    by_cases h : p.targetFloor = cur
    · simp [disembarkLoop, h, ih]
      omega
    · simp [disembarkLoop, h, ih]

theorem disembarkLoop_out (cur : Int) (ps : List Passenger) (pr : Int) (out : List Event) :
    (disembarkLoop cur ps pr out).2.2 =
      out ++ (ps.filter (fun p => decide (p.targetFloor = cur))).map
        (fun p => Event.gettingOff p.id cur) := by
  induction ps generalizing pr out with
  | nil => simp [disembarkLoop]
  | cons p rest ih =>
    by_cases h : p.targetFloor = cur
    · simp [disembarkLoop, h, ih]
    · simp [disembarkLoop, h, ih]

theorem boardLoop_spec (cur : Int) (dir : Direction) (q onboard : List Passenger)
    (out : List Event) :
    ∃ k : Nat, k ≤ q.length ∧
      (boardLoop cur dir q onboard out).2.1 = onboard ++ q.take k ∧
      (boardLoop cur dir q onboard out).1 = q.drop k ∧
      (boardLoop cur dir q onboard out).2.2 =
        out ++ (q.take k).map (fun p => Event.boarding p.id cur p.targetFloor) := by
  induction q generalizing onboard out with
  | nil => exact ⟨0, by simp [boardLoop]⟩
  | cons front rest ih =>
    unfold boardLoop
    split
    · split
      · obtain ⟨k, h0, h1, h2, h3⟩ := ih (onboard ++ [front])
          (out ++ [Event.boarding front.id cur front.targetFloor])
        exact ⟨k + 1, by simpa using h0, by simp [h1], by simp [h2], by simp [h3]⟩
      · exact ⟨0, by simp⟩
    · exact ⟨0, by simp⟩

theorem boardLoop_length_le (cur : Int) (dir : Direction) (q onboard : List Passenger)
    (out : List Event) (h : onboard.length ≤ MAX_CAPACITY) :
    (boardLoop cur dir q onboard out).2.1.length ≤ MAX_CAPACITY := by
  induction q generalizing onboard out with
  | nil => simpa [boardLoop] using h
  | cons front rest ih =>
    unfold boardLoop
    split
    · rename_i hlt
      split
      · apply ih
        simp only [List.length_append, List.length_singleton]
        omega
      · exact h
    · exact h

theorem disembark_length_le (s : Elevator) :
    (disembark s).passengers.length ≤ s.passengers.length := by
  rw [disembark_passengers]
  exact List.length_filter_le _ _

theorem board_length_le (s : Elevator) (i : Fin MAX_FLOORS)
    (h : s.passengers.length ≤ MAX_CAPACITY) :
    (board s i).passengers.length ≤ MAX_CAPACITY :=
  boardLoop_length_le _ _ _ _ _ h

/-! ## Registration -/

theorem addPassenger_eq_some (s s1 : Elevator) (fromFloor toFloor : Int)
    (h : addPassenger s fromFloor toFloor = some s1) :
    ∃ i : Fin MAX_FLOORS, floorIndex fromFloor = some i ∧
      s1 = { s with
        waitingPassengers := Function.update s.waitingPassengers i
          (s.waitingPassengers i ++
            [{ currentFloor := fromFloor, targetFloor := toFloor, id := s.nextId }])
        nextId := s.nextId + 1
        totalPassengers := s.totalPassengers + 1
        cout := s.cout ++ [Event.added s.nextId fromFloor toFloor] } := by
  unfold addPassenger at h
  split at h
  · exact absurd h (by simp)
  · rename_i i hi
    refine ⟨i, hi, ?_⟩
    simp only [Option.some.injEq] at h
    rw [← h]
    simp

/-! ## Induction over the reachable states -/

theorem registerAll_invariant (P : Elevator → Prop)
    (hadd : ∀ s s1 f t, P s → addPassenger s f t = some s1 → P s1)
    (regs : List (Int × Int)) (s s0 : Elevator) (hs : P s)
    (h : registerAll s regs = some s0) : P s0 := by
  induction regs generalizing s with
  | nil =>
    simp only [registerAll, Option.some.injEq] at h
    exact h ▸ hs
  | cons r rest ih =>
    obtain ⟨f, t⟩ := r
    simp only [registerAll] at h
    cases ha : addPassenger s f t with
    | none => simp [ha] at h
    | some s1 =>
      rw [ha] at h
      exact ih s1 (hadd s s1 f t hs ha) h

theorem runFor_invariant (P : Elevator → Prop)
    (htick : ∀ s s1, P s → loopCond s = true → tick s = some s1 → P s1)
    (n : Nat) (s s1 : Elevator) (hs : P s) (h : runFor n s = some s1) : P s1 := by
  induction n generalizing s with
  | zero =>
    simp only [runFor, Option.some.injEq] at h
    exact h ▸ hs
  | succ n ih =>
    simp only [runFor] at h
    split at h
    · rename_i hc
      cases ht : tick s with
      | none => simp [ht] at h
      | some s2 =>
        rw [ht] at h
        exact ih s2 (htick s s2 hs hc ht) h
    · exact absurd h (by simp)

theorem reachable_invariant (P : Elevator → Prop) (startingFloor : Int)
    (hinit : P (newElevator startingFloor))
    (hadd : ∀ s s1 f t, P s → addPassenger s f t = some s1 → P s1)
    (htick : ∀ s s1, P s → loopCond s = true → tick s = some s1 → P s1)
    (s : Elevator) (h : Reachable startingFloor s) : P s := by
  obtain ⟨regs, n, s0, hreg, hrun⟩ := h
  exact runFor_invariant P htick n s0 s
    (registerAll_invariant P hadd regs _ s0 hinit hreg) hrun

theorem tick_eq_some (s s1 : Elevator) (h : tick s = some s1) :
    ∃ i : Fin MAX_FLOORS, floorIndex s.currentFloor = some i ∧
      s1 = move (redirect (board (disembark s) i)) := by
  unfold tick at h
  simp only [disembark_currentFloor] at h
  split at h
  · exact absurd h (by simp)
  · rename_i i hi
    exact ⟨i, hi, by simpa using h.symm⟩

theorem reachable_capacity (startingFloor : Int) (s : Elevator)
    (h : Reachable startingFloor s) : s.passengers.length ≤ MAX_CAPACITY := by
  refine reachable_invariant (fun s => s.passengers.length ≤ MAX_CAPACITY) startingFloor
    ?_ ?_ ?_ s h
  · simp [newElevator]
  · intro s s1 f t hs ha
    obtain ⟨i, -, rfl⟩ := addPassenger_eq_some s s1 f t ha
    exact hs
  · intro s s1 hs _ ht
    obtain ⟨i, -, rfl⟩ := tick_eq_some s s1 ht
    simp only [move_passengers, redirect_passengers]
    exact board_length_le _ i (le_trans (disembark_length_le s) hs)

/-- C3. Capacity invariant: in every state reachable from the constructor by
registrations followed by iterations of the control loop, at most
`MAX_CAPACITY = 9` passengers are on board, and this also holds right after
the boarding step of the next iteration. -/
theorem capacity_invariant (startingFloor : Int) (s : Elevator)
    (h : Reachable startingFloor s) :
    s.passengers.length ≤ 9 ∧
      ∀ i : Fin MAX_FLOORS, (board (disembark s) i).passengers.length ≤ 9 :=
  ⟨reachable_capacity startingFloor s h, fun i =>
    board_length_le _ i (le_trans (disembark_length_le s) (reachable_capacity startingFloor s h))⟩

theorem filter_length_add (ps : List Passenger) (cur : Int) :
    (ps.filter (fun p => decide (p.targetFloor ≠ cur))).length +
      (ps.filter (fun p => decide (p.targetFloor = cur))).length = ps.length := by
  induction ps with
  | nil => rfl
  | cons p rest ih =>
    by_cases h : p.targetFloor = cur
    · simp [h] at ih ⊢
      omega
    · simp [h] at ih ⊢
      omega

theorem disembark_conservation (s : Elevator) :
    (disembark s).processedPassengers + ((disembark s).passengers.length : Int) =
      s.processedPassengers + (s.passengers.length : Int) := by
  have h1 : (disembark s).processedPassengers = _ :=
    disembarkLoop_processed s.currentFloor s.passengers s.processedPassengers s.cout
  have h2 := filter_length_add s.passengers s.currentFloor
  rw [h1, disembark_passengers]
  omega

theorem waitingCount_disembark (s : Elevator) : waitingCount (disembark s) = waitingCount s :=
  rfl

theorem board_conservation (s : Elevator) (i : Fin MAX_FLOORS) :
    (board s i).passengers.length + waitingCount (board s i) =
      s.passengers.length + waitingCount s := by
  obtain ⟨k, hk, h1, h2, -⟩ := boardLoop_spec s.currentFloor s.direction
    (s.waitingPassengers i) s.passengers s.cout
  have hsum := sum_finRange_update List.length s.waitingPassengers i
    (boardLoop s.currentFloor s.direction (s.waitingPassengers i) s.passengers s.cout).1
  have hp : (board s i).passengers =
      (boardLoop s.currentFloor s.direction (s.waitingPassengers i) s.passengers s.cout).2.1 :=
    rfl
  have hw : waitingCount (board s i) =
      ((List.finRange MAX_FLOORS).map (fun j => (Function.update s.waitingPassengers i
        (boardLoop s.currentFloor s.direction (s.waitingPassengers i) s.passengers
          s.cout).1 j).length)).sum := rfl
  rw [hp, hw, h1]
  rw [h2] at hsum ⊢
  simp only [List.length_append, List.length_take, List.length_drop] at hsum ⊢
  unfold waitingCount
  omega

theorem waitingCount_redirect (s : Elevator) : waitingCount (redirect s) = waitingCount s :=
  rfl

theorem waitingCount_move (s : Elevator) : waitingCount (move s) = waitingCount s := by
  unfold waitingCount
  rw [move_waitingPassengers]

theorem reachable_conservation (startingFloor : Int) (s : Elevator)
    (h : Reachable startingFloor s) :
    s.processedPassengers + (s.passengers.length : Int) + (waitingCount s : Int) =
      s.totalPassengers ∧ 0 ≤ s.processedPassengers := by
  refine reachable_invariant
    (fun s => s.processedPassengers + (s.passengers.length : Int) + (waitingCount s : Int) =
      s.totalPassengers ∧ 0 ≤ s.processedPassengers) startingFloor ?_ ?_ ?_ s h
  · simp [newElevator, waitingCount]
  · intro s s1 f t hs ha
    obtain ⟨i, -, rfl⟩ := addPassenger_eq_some s s1 f t ha
    have hsum := sum_finRange_update List.length s.waitingPassengers i
      (s.waitingPassengers i ++ [{ currentFloor := f, targetFloor := t, id := s.nextId }])
    simp only [List.length_append, List.length_singleton] at hsum
    simp only [waitingCount] at hs ⊢
    refine ⟨?_, hs.2⟩
    omega
  · intro s s1 hs _ ht
    obtain ⟨i, -, rfl⟩ := tick_eq_some s s1 ht
    have h1 := disembark_conservation s
    have h2 := board_conservation (disembark s) i
    have h3 : (disembark s).processedPassengers =
        s.processedPassengers +
          ((s.passengers.filter (fun p => decide (p.targetFloor = s.currentFloor))).length : Int) :=
      disembarkLoop_processed s.currentFloor s.passengers s.processedPassengers s.cout
    simp only [move_processedPassengers, move_passengers, move_totalPassengers,
      waitingCount_move, redirect_processedPassengers, redirect_passengers,
      redirect_totalPassengers, waitingCount_redirect, board_processedPassengers,
      board_totalPassengers, disembark_totalPassengers]
    rw [waitingCount_disembark] at h2
    refine ⟨?_, ?_⟩
    · omega
    · omega

/-- C8. In every state reachable from the constructor by registrations
followed by iterations of the control loop, the number of processed
passengers is at most the number of registered passengers. -/
theorem processed_le_total (startingFloor : Int) (s : Elevator)
    (h : Reachable startingFloor s) :
    s.processedPassengers ≤ s.totalPassengers := by
  have hc := (reachable_conservation startingFloor s h).1
  omega

/-! ## The lines written to the output -/

theorem addedIds_append (a b : List Event) : addedIds (a ++ b) = addedIds a ++ addedIds b :=
  List.filterMap_append _ _ _

theorem gettingOffIds_append (a b : List Event) :
    gettingOffIds (a ++ b) = gettingOffIds a ++ gettingOffIds b :=
  List.filterMap_append _ _ _

theorem addedIds_map_gettingOff (ps : List Passenger) (cur : Int) :
    addedIds (ps.map (fun p => Event.gettingOff p.id cur)) = [] := by
  induction ps with
  | nil => rfl
  | cons p rest ih => simp [addedIds]

theorem addedIds_map_boarding (ps : List Passenger) (cur : Int) :
    addedIds (ps.map (fun p => Event.boarding p.id cur p.targetFloor)) = [] := by
  induction ps with
  | nil => rfl
  | cons p rest ih => simp [addedIds]

theorem gettingOffIds_map_boarding (ps : List Passenger) (cur : Int) :
    gettingOffIds (ps.map (fun p => Event.boarding p.id cur p.targetFloor)) = [] := by
  induction ps with
  | nil => rfl
  | cons p rest ih => simp [gettingOffIds]

theorem gettingOffIds_map_gettingOff (ps : List Passenger) (cur : Int) :
    gettingOffIds (ps.map (fun p => Event.gettingOff p.id cur)) = ps.map Passenger.id := by
  induction ps with
  | nil => rfl
  | cons p rest ih => simpa [gettingOffIds] using ih

theorem disembark_cout (s : Elevator) :
    (disembark s).cout = s.cout ++
      (s.passengers.filter (fun p => decide (p.targetFloor = s.currentFloor))).map
        (fun p => Event.gettingOff p.id s.currentFloor) :=
  disembarkLoop_out _ _ _ _

theorem count_filter_split (x : Int) (ps : List Passenger) (cur : Int) :
    ((ps.filter (fun p => decide (p.targetFloor ≠ cur))).map Passenger.id).count x +
      ((ps.filter (fun p => decide (p.targetFloor = cur))).map Passenger.id).count x =
      (ps.map Passenger.id).count x := by
  induction ps with
  | nil => rfl
  | cons p rest ih =>
    by_cases h : p.targetFloor = cur
    · simp [h, List.count_cons] at ih ⊢
      omega
    · simp [h, List.count_cons] at ih ⊢
      omega

theorem registeredIds_disembark (s : Elevator) :
    registeredIds (disembark s) = registeredIds s := by
  simp [registeredIds, disembark_cout, addedIds_append, addedIds_map_gettingOff]

theorem count_disembark (x : Int) (s : Elevator) :
    (locatedIds (disembark s)).count x + (disembarkedIds (disembark s)).count x =
      (locatedIds s).count x + (disembarkedIds s).count x := by
  have h := count_filter_split x s.passengers s.currentFloor
  simp only [count_locatedIds, disembarkedIds, disembark_cout, gettingOffIds_append,
    gettingOffIds_map_gettingOff, List.count_append, disembark_passengers,
    disembark_waitingPassengers]
  omega

theorem board_spec (s : Elevator) (i : Fin MAX_FLOORS) :
    ∃ k : Nat, k ≤ (s.waitingPassengers i).length ∧
      (board s i).passengers = s.passengers ++ (s.waitingPassengers i).take k ∧
      (board s i).waitingPassengers =
        Function.update s.waitingPassengers i ((s.waitingPassengers i).drop k) ∧
      (board s i).cout = s.cout ++
        ((s.waitingPassengers i).take k).map
          (fun p => Event.boarding p.id s.currentFloor p.targetFloor) := by
  obtain ⟨k, hk, h1, h2, h3⟩ := boardLoop_spec s.currentFloor s.direction
    (s.waitingPassengers i) s.passengers s.cout
  refine ⟨k, hk, h1, ?_, h3⟩
  show Function.update s.waitingPassengers i _ = _
  rw [h2]

theorem registeredIds_board (s : Elevator) (i : Fin MAX_FLOORS) :
    registeredIds (board s i) = registeredIds s := by
  obtain ⟨k, -, -, -, h⟩ := board_spec s i
  rw [registeredIds, h, addedIds_append, addedIds_map_boarding, List.append_nil]
  rfl

theorem disembarkedIds_board (s : Elevator) (i : Fin MAX_FLOORS) :
    disembarkedIds (board s i) = disembarkedIds s := by
  obtain ⟨k, -, -, -, h⟩ := board_spec s i
  rw [disembarkedIds, h, gettingOffIds_append, gettingOffIds_map_boarding, List.append_nil]
  rfl

theorem count_take_add_drop (x : Int) (q : List Passenger) (k : Nat) :
    ((q.take k).map Passenger.id).count x + ((q.drop k).map Passenger.id).count x =
      (q.map Passenger.id).count x := by
  rw [← List.count_append, ← List.map_append, List.take_append_drop]

theorem count_locatedIds_board (x : Int) (s : Elevator) (i : Fin MAX_FLOORS) :
    (locatedIds (board s i)).count x = (locatedIds s).count x := by
  obtain ⟨k, -, hp, hw, -⟩ := board_spec s i
  have hsum := sum_finRange_update (fun q => (q.map Passenger.id).count x)
    s.waitingPassengers i ((s.waitingPassengers i).drop k)
  have hsplit := count_take_add_drop x (s.waitingPassengers i) k
  simp only [count_locatedIds, hp, hw, List.map_append, List.count_append] at hsum ⊢
  omega

theorem locatedIds_redirect (s : Elevator) : locatedIds (redirect s) = locatedIds s := rfl

theorem locatedIds_move (s : Elevator) : locatedIds (move s) = locatedIds s := by
  unfold locatedIds
  rw [move_waitingPassengers, move_passengers]

theorem reachable_ids (startingFloor : Int) (s : Elevator) (h : Reachable startingFloor s) :
    (∀ x, (locatedIds s).count x + (disembarkedIds s).count x = (registeredIds s).count x) ∧
      (registeredIds s).Nodup ∧ ∀ x ∈ registeredIds s, x < s.nextId := by
  refine reachable_invariant
    (fun s => (∀ x, (locatedIds s).count x + (disembarkedIds s).count x =
        (registeredIds s).count x) ∧
      (registeredIds s).Nodup ∧ ∀ x ∈ registeredIds s, x < s.nextId) startingFloor ?_ ?_ ?_ s h
  · refine ⟨fun x => ?_, ?_, ?_⟩
    · simp [count_locatedIds, newElevator, disembarkedIds, registeredIds, gettingOffIds,
        addedIds]
    · simp [newElevator, registeredIds, addedIds]
    · simp [newElevator, registeredIds, addedIds]
  · intro s s1 f t hs ha
    obtain ⟨hcount, hnd, hlt⟩ := hs
    obtain ⟨i, -, rfl⟩ := addPassenger_eq_some s s1 f t ha
    have hreg : registeredIds
        { s with
          waitingPassengers := Function.update s.waitingPassengers i
            (s.waitingPassengers i ++ [{ currentFloor := f, targetFloor := t, id := s.nextId }])
          nextId := s.nextId + 1
          totalPassengers := s.totalPassengers + 1
          cout := s.cout ++ [Event.added s.nextId f t] } = registeredIds s ++ [s.nextId] := by
      simp [registeredIds, addedIds_append, addedIds]
    have hdis : disembarkedIds
        { s with
          waitingPassengers := Function.update s.waitingPassengers i
            (s.waitingPassengers i ++ [{ currentFloor := f, targetFloor := t, id := s.nextId }])
          nextId := s.nextId + 1
          totalPassengers := s.totalPassengers + 1
          cout := s.cout ++ [Event.added s.nextId f t] } = disembarkedIds s := by
      simp [disembarkedIds, gettingOffIds_append, gettingOffIds]
    refine ⟨fun x => ?_, ?_, ?_⟩
    · have hsum := sum_finRange_update (fun q => (q.map Passenger.id).count x)
        s.waitingPassengers i
        (s.waitingPassengers i ++ [{ currentFloor := f, targetFloor := t, id := s.nextId }])
      have hx := hcount x
      rw [hreg, hdis]
      simp only [count_locatedIds, List.map_append, List.count_append, List.map_cons,
        List.map_nil] at hsum hx ⊢
      omega
    · rw [hreg]
      refine List.Nodup.append hnd (List.nodup_singleton _) ?_
      intro x hx1 hx2
      have := hlt x hx1
      simp only [List.mem_singleton] at hx2
      omega
    · intro x hx
      rw [hreg, List.mem_append, List.mem_singleton] at hx
      show x < s.nextId + 1
      rcases hx with hx | hx
      · have := hlt x hx
        omega
      · omega
  · intro s s1 hs _ ht
    obtain ⟨hcount, hnd, hlt⟩ := hs
    obtain ⟨i, -, rfl⟩ := tick_eq_some s s1 ht
    have hreg : registeredIds (move (redirect (board (disembark s) i))) = registeredIds s := by
      have : registeredIds (move (redirect (board (disembark s) i))) =
          registeredIds (board (disembark s) i) := by
        simp [registeredIds]
      rw [this, registeredIds_board, registeredIds_disembark]
    have hdis : disembarkedIds (move (redirect (board (disembark s) i))) =
        disembarkedIds (disembark s) := by
      have : disembarkedIds (move (redirect (board (disembark s) i))) =
          disembarkedIds (board (disembark s) i) := by
        simp [disembarkedIds]
      rw [this, disembarkedIds_board]
    refine ⟨fun x => ?_, ?_, ?_⟩
    · rw [hreg, hdis, locatedIds_move, locatedIds_redirect, count_locatedIds_board,
        count_disembark]
      exact hcount x
    · rw [hreg]
      exact hnd
    · intro x hx
      rw [hreg] at hx
      simpa using hlt x hx

/-- C7. Exclusive location invariant: in every state reachable by
registrations followed by iterations of the control loop, the passenger ids
found in the ten waiting queues together with the onboard list are pairwise
distinct, and every id that was registered and has not yet got off occurs
among them exactly once. -/
theorem exclusive_location (startingFloor : Int) (s : Elevator)
    (h : Reachable startingFloor s) :
    (locatedIds s).Nodup ∧
      ∀ x, x ∈ registeredIds s → x ∉ disembarkedIds s → (locatedIds s).count x = 1 := by
  obtain ⟨hcount, hnd, -⟩ := reachable_ids startingFloor s h
  refine ⟨?_, ?_⟩
  · rw [List.nodup_iff_count_le_one]
    intro x
    have h1 := hcount x
    have h2 := List.nodup_iff_count_le_one.mp hnd x
    omega
  · intro x hx hnx
    have h1 := hcount x
    have h2 := List.count_eq_one_of_mem hnd hx
    have h3 : (disembarkedIds s).count x = 0 := List.count_eq_zero.mpr hnx
    omega

theorem move_floor_range (s : Elevator) (h0 : 0 ≤ s.currentFloor) (h9 : s.currentFloor ≤ 9) :
    0 ≤ (move s).currentFloor ∧ (move s).currentFloor ≤ 9 := by
  rw [move_currentFloor]
  split_ifs <;> omega

theorem reachable_floor_range (startingFloor : Int) (h0 : 0 ≤ startingFloor)
    (h9 : startingFloor ≤ 9) (s : Elevator) (h : Reachable startingFloor s) :
    0 ≤ s.currentFloor ∧ s.currentFloor ≤ 9 := by
  refine reachable_invariant (fun s => 0 ≤ s.currentFloor ∧ s.currentFloor ≤ 9) startingFloor
    ⟨h0, h9⟩ ?_ ?_ s h
  · intro s s1 f t hs ha
    obtain ⟨i, -, rfl⟩ := addPassenger_eq_some s s1 f t ha
    exact hs
  · intro s s1 hs _ ht
    obtain ⟨i, -, rfl⟩ := tick_eq_some s s1 ht
    exact move_floor_range _ hs.1 hs.2

theorem tick_direction (s s1 : Elevator) (h : tick s = some s1) :
    ∃ i : Fin MAX_FLOORS, ((i : Nat) : Int) = s.currentFloor ∧
      s1.direction = decisionTable s.direction
        (decide (aboveExists (board (disembark s) i)))
        (decide (belowExists (board (disembark s) i))) := by
  obtain ⟨i, hi, rfl⟩ := tick_eq_some s s1 h
  refine ⟨i, (floorIndex_eq_some _ i hi).1, ?_⟩
  rw [move_direction, redirect_direction]
  rfl

/-- C6. Direction continuation: for a reachable state with direction UP and
an onboard destination or a non-empty waiting queue above the current floor,
the state after the next iteration of the loop still has direction UP, and
for a starting floor in 0..9 that iteration is defined; the same with DOWN
and below. -/
theorem direction_continuation (startingFloor : Int) (s : Elevator)
    (h : Reachable startingFloor s) :
    (s.direction = Direction.UP → aboveExists s →
        (∀ s1, tick s = some s1 → s1.direction = Direction.UP) ∧
          (0 ≤ startingFloor → startingFloor ≤ 9 →
            ∃ s1, tick s = some s1 ∧ s1.direction = Direction.UP)) ∧
      (s.direction = Direction.DOWN → belowExists s →
        (∀ s1, tick s = some s1 → s1.direction = Direction.DOWN) ∧
          (0 ≤ startingFloor → startingFloor ≤ 9 →
            ∃ s1, tick s = some s1 ∧ s1.direction = Direction.DOWN)) := by
  have hdef : 0 ≤ startingFloor → startingFloor ≤ 9 → ∃ s1, tick s = some s1 := by
    intro h0 h9
    obtain ⟨hlo, hhi⟩ := reachable_floor_range startingFloor h0 h9 s h
    obtain ⟨i, hi, -⟩ := floorIndex_some_of_range s.currentFloor hlo (by omega)
    exact ⟨_, tick_eq s i hi⟩
  have hup : s.direction = Direction.UP → aboveExists s →
      ∀ s1, tick s = some s1 → s1.direction = Direction.UP := by
    intro hd ha s1 ht
    obtain ⟨i, hi, hdir⟩ := tick_direction s s1 ht
    have := aboveExists_board_disembark s i hi ha
    rw [hdir, hd]
    simp [decisionTable, this]
  have hdown : s.direction = Direction.DOWN → belowExists s →
      ∀ s1, tick s = some s1 → s1.direction = Direction.DOWN := by
    intro hd hb s1 ht
    obtain ⟨i, hi, hdir⟩ := tick_direction s s1 ht
    have := belowExists_board_disembark s i hi hb
    rw [hdir, hd]
    simp [decisionTable, this]
  refine ⟨fun hd ha => ⟨hup hd ha, fun h0 h9 => ?_⟩, fun hd hb => ⟨hdown hd hb, fun h0 h9 => ?_⟩⟩
  · obtain ⟨s1, ht⟩ := hdef h0 h9
    exact ⟨s1, ht, hup hd ha s1 ht⟩
  · obtain ⟨s1, ht⟩ := hdef h0 h9
    exact ⟨s1, ht, hdown hd hb s1 ht⟩

/-! ## Iterations in which nobody gets off and nobody boards -/

theorem disembark_of_empty (s : Elevator) (hp : s.passengers = []) : disembark s = s := by
  cases s
  simp only at hp
  subst hp
  rfl

theorem boardLoop_of_incompatible (cur : Int) (dir : Direction) (q onboard : List Passenger)
    (out : List Event)
    (hq : ∀ front rest, q = front :: rest →
      ¬((dir = Direction.UP ∧ front.targetFloor > cur) ∨
        (dir = Direction.DOWN ∧ front.targetFloor < cur) ∨ dir = Direction.IDLE)) :
    boardLoop cur dir q onboard out = (q, onboard, out) := by
  cases q with
  | nil => rfl
  | cons front rest =>
    have := hq front rest rfl
    unfold boardLoop
    simp only [this, if_false, ite_self]

theorem board_of_incompatible (s : Elevator) (i : Fin MAX_FLOORS)
    (hq : ∀ front rest, s.waitingPassengers i = front :: rest →
      ¬((s.direction = Direction.UP ∧ front.targetFloor > s.currentFloor) ∨
        (s.direction = Direction.DOWN ∧ front.targetFloor < s.currentFloor) ∨
        s.direction = Direction.IDLE)) :
    board s i = s := by
  unfold board
  rw [boardLoop_of_incompatible _ _ _ _ _ hq]
  cases s
  simp

theorem tick_of_no_exchange (s : Elevator) (i : Fin MAX_FLOORS)
    (hi : floorIndex s.currentFloor = some i) (hp : s.passengers = [])
    (hq : ∀ front rest, s.waitingPassengers i = front :: rest →
      ¬((s.direction = Direction.UP ∧ front.targetFloor > s.currentFloor) ∨
        (s.direction = Direction.DOWN ∧ front.targetFloor < s.currentFloor) ∨
        s.direction = Direction.IDLE)) :
    tick s = some (move (redirect s)) := by
  rw [tick_eq s i hi, disembark_of_empty s hp, board_of_incompatible s i hq]

theorem aboveExists_of_empty (s : Elevator) (hp : s.passengers = []) :
    aboveExists s ↔
      ∃ i : Fin MAX_FLOORS, ((i : Nat) : Int) > s.currentFloor ∧ s.waitingPassengers i ≠ [] := by
  simp [aboveExists, hp]

theorem belowExists_of_empty (s : Elevator) (hp : s.passengers = []) :
    belowExists s ↔
      ∃ i : Fin MAX_FLOORS, ((i : Nat) : Int) < s.currentFloor ∧ s.waitingPassengers i ≠ [] := by
  simp [belowExists, hp]

theorem loopCond_of_unprocessed (s : Elevator) (hr : s.running = true)
    (h : s.processedPassengers < s.totalPassengers) : loopCond s = true := by
  simp [loopCond, isSimulationComplete, hr, h]

theorem runFor_stuck (P : Elevator → Prop)
    (hcond : ∀ s, P s → loopCond s = true)
    (hstep : ∀ s, P s → ∃ s1, tick s = some s1 ∧ P s1)
    (n : Nat) (s : Elevator) (hs : P s) : ∃ s1, runFor n s = some s1 ∧ P s1 := by
  induction n generalizing s with
  | zero => exact ⟨s, rfl, hs⟩
  | succ n ih =>
    obtain ⟨s1, ht, hs1⟩ := hstep s hs
    obtain ⟨s2, hr, hs2⟩ := ih s1 hs1
    exact ⟨s2, by simp [runFor, hcond s hs, ht, hr], hs2⟩

theorem run_stuck (P : Elevator → Prop)
    (hcond : ∀ s, P s → loopCond s = true)
    (hstep : ∀ s, P s → ∃ s1, tick s = some s1 ∧ P s1)
    (fuel : Nat) (s : Elevator) (hs : P s) : run fuel s = none := by
  induction fuel generalizing s with
  | zero => simp [run, hcond s hs]
  | succ n ih =>
    obtain ⟨s1, ht, hs1⟩ := hstep s hs
    simp [run, hcond s hs, ht, ih s1 hs1]

theorem frontBlocked_spec (cur : Int) (dir : Direction) (q : List Passenger)
    (h : frontBlocked cur dir q = true) :
    ∀ front rest, q = front :: rest →
      ¬((dir = Direction.UP ∧ front.targetFloor > cur) ∨
        (dir = Direction.DOWN ∧ front.targetFloor < cur) ∨ dir = Direction.IDLE) := by
  intro front rest hq
  subst hq
  simp only [frontBlocked, Bool.not_eq_true', decide_eq_false_iff_not] at h
  exact h

theorem tick_empty_car (s : Elevator) (i : Fin MAX_FLOORS)
    (hi : floorIndex s.currentFloor = some i) (hp : s.passengers = [])
    (hq : frontBlocked s.currentFloor s.direction (s.waitingPassengers i) = true) :
    ∃ s1, tick s = some s1 ∧ s1.passengers = [] ∧ s1.running = s.running ∧
      s1.processedPassengers = s.processedPassengers ∧
      s1.totalPassengers = s.totalPassengers ∧
      s1.waitingPassengers = s.waitingPassengers ∧ s1.cout = s.cout ∧
      s1.currentFloor = (emptyCarStep s.waitingPassengers s.currentFloor s.direction).1 ∧
      s1.direction = (emptyCarStep s.waitingPassengers s.currentFloor s.direction).2 := by
  have hd : (redirect s).direction =
      (emptyCarStep s.waitingPassengers s.currentFloor s.direction).2 := by
    rw [redirect_direction]
    simp only [emptyCarStep, aboveExists_of_empty s hp, belowExists_of_empty s hp]
  refine ⟨move (redirect s),
    tick_of_no_exchange s i hi hp (frontBlocked_spec _ _ _ hq), ?_, ?_, ?_, ?_, ?_, ?_, ?_, ?_⟩
  · simpa using hp
  · simp
  · simp
  · simp
  · simp
  · simp
  · rw [move_currentFloor, hd]
    rfl
  · rw [move_direction, hd]

theorem stuckTwoFive_step (s : Elevator) (hs : StuckTwoFive s) :
    ∃ s1, tick s = some s1 ∧ StuckTwoFive s1 := by
  obtain ⟨hp, hr, hproc, htot, hw, hcfg⟩ := hs
  obtain ⟨i, hi, hic⟩ := floorIndex_some_of_range s.currentFloor (by omega) (by omega)
  have hblocked : frontBlocked s.currentFloor s.direction (s.waitingPassengers i) = true := by
    rw [hw]
    rw [← hic] at hcfg ⊢
    revert hcfg
    generalize s.direction = d
    clear hi hic
    fin_cases i <;> cases d <;> decide
  obtain ⟨s1, ht, h1, h2, h3, h4, h5, -, h7, h8⟩ := tick_empty_car s i hi hp hblocked
  refine ⟨s1, ht, h1, h2.trans hr, h3.trans hproc, h4.trans htot, h5.trans hw, ?_⟩
  rw [h7, h8, hw]
  rw [← hic] at hcfg ⊢
  revert hcfg
  generalize s.direction = d
  clear hi hic hblocked h7 h8 ht
  fin_cases i <;> cases d <;> decide

theorem stuckTwoFive_loopCond (s : Elevator) (hs : StuckTwoFive s) : loopCond s = true := by
  obtain ⟨-, hr, hproc, htot, -, -⟩ := hs
  exact loopCond_of_unprocessed s hr (by omega)

theorem stuckTwoFive_init :
    ∃ s0, registerAll (newElevator 3) [(2, 7), (5, 3)] = some s0 ∧ StuckTwoFive s0 := by
  refine ⟨_, rfl, rfl, rfl, rfl, rfl, ?_, Or.inl ⟨rfl, rfl⟩⟩
  funext i
  fin_cases i <;> rfl

/-- C4 (on the failing input). Started at floor 3 with the registrations
(2→7) and (5→3), every iteration of the control loop is defined and is
entered with the loop condition true: after any number of iterations nobody
is on board, nobody has been processed and `isSimulationComplete` is false,
so `run` never returns, whatever the number of iterations allowed. -/
theorem run_never_completes_from_3 :
    (∀ n : Nat, ∃ s, simulate 3 [(2, 7), (5, 3)] n = some s ∧
        isSimulationComplete s = false ∧ s.passengers = [] ∧
        s.processedPassengers = 0 ∧ s.totalPassengers = 2 ∧
        s.waitingPassengers = queuesTwoFive) ∧
      ∀ fuel : Nat, mainRun 3 [(2, 7), (5, 3)] fuel = none := by
  obtain ⟨s0, h0, hs0⟩ := stuckTwoFive_init
  refine ⟨fun n => ?_, fun fuel => ?_⟩
  · obtain ⟨s, hrun, hs⟩ :=
      runFor_stuck StuckTwoFive stuckTwoFive_loopCond stuckTwoFive_step n s0 hs0
    refine ⟨s, by simp [simulate, h0, hrun], ?_, hs.1, hs.2.2.1, hs.2.2.2.1, hs.2.2.2.2.1⟩
    have := stuckTwoFive_loopCond s hs
    simpa [loopCond, hs.2.1] using this
  · simp [mainRun, h0,
      run_stuck StuckTwoFive stuckTwoFive_loopCond stuckTwoFive_step fuel s0 hs0]

theorem stuckScenarioB_step (s : Elevator) (hs : StuckScenarioB s) :
    ∃ s1, tick s = some s1 ∧ StuckScenarioB s1 := by
  obtain ⟨hp, hr, hproc, htot, hw, hout, hcfg⟩ := hs
  obtain ⟨i, hi, hic⟩ := floorIndex_some_of_range s.currentFloor (by omega) (by omega)
  have hblocked : frontBlocked s.currentFloor s.direction (s.waitingPassengers i) = true := by
    rw [hw]
    rw [← hic] at hcfg ⊢
    revert hcfg
    generalize s.direction = d
    clear hi hic
    fin_cases i <;> cases d <;> decide
  obtain ⟨s1, ht, h1, h2, h3, h4, h5, h6, h7, h8⟩ := tick_empty_car s i hi hp hblocked
  refine ⟨s1, ht, h1, h2.trans hr, h3.trans hproc, h4.trans htot, h5.trans hw,
    h6.trans hout, ?_⟩
  rw [h7, h8, hw]
  rw [← hic] at hcfg ⊢
  revert hcfg
  generalize s.direction = d
  clear hi hic hblocked h7 h8 ht
  fin_cases i <;> cases d <;> decide

theorem stuckScenarioB_loopCond (s : Elevator) (hs : StuckScenarioB s) :
    loopCond s = true := by
  obtain ⟨-, hr, hproc, htot, -, -, -⟩ := hs
  exact loopCond_of_unprocessed s hr (by omega)

theorem stuckScenarioB_init :
    ∃ s0, registerAll (newElevator 5) [(0, 9), (9, 0)] = some s0 ∧ StuckScenarioB s0 := by
  refine ⟨_, rfl, rfl, rfl, rfl, rfl, ?_, rfl, Or.inl ⟨rfl, rfl⟩⟩
  funext i
  fin_cases i <;> rfl

/-- C5 (on the scenario's input). Scenario B, start at floor 5 with (0→9)
and (9→0) registered: the first move is DOWN, after five iterations the car
is at floor 0 heading DOWN, and the iteration at floor 0 takes nobody on
board: passenger 1 is still queued at floor 0 while the car leaves for
floor 1 heading UP with no "boarding" line written.  After any number of
iterations the car is still empty and no "boarding" line has been written. -/
theorem scenarioB_nobody_boards :
    (simulate 5 [(0, 9), (9, 0)] 1).map (fun s => (s.direction, s.currentFloor)) =
        some (Direction.DOWN, 4) ∧
      (simulate 5 [(0, 9), (9, 0)] 5).map
          (fun s => (s.direction, s.currentFloor, s.passengers, s.waitingPassengers 0)) =
        some (Direction.DOWN, 0, [], [{ currentFloor := 0, targetFloor := 9, id := 1 }]) ∧
      (simulate 5 [(0, 9), (9, 0)] 6).map
          (fun s => (s.direction, s.currentFloor, s.passengers, s.waitingPassengers 0,
            boardingIds s.cout)) =
        some (Direction.UP, 1, [], [{ currentFloor := 0, targetFloor := 9, id := 1 }], []) ∧
      ∀ n : Nat, ∃ s, simulate 5 [(0, 9), (9, 0)] n = some s ∧ s.passengers = [] ∧
        boardingIds s.cout = [] ∧ isSimulationComplete s = false := by
  refine ⟨by decide!, by decide!, by decide!, fun n => ?_⟩
  obtain ⟨s0, h0, hs0⟩ := stuckScenarioB_init
  obtain ⟨s, hrun, hs⟩ :=
    runFor_stuck StuckScenarioB stuckScenarioB_loopCond stuckScenarioB_step n s0 hs0
  refine ⟨s, by simp [simulate, h0, hrun], hs.1, ?_, ?_⟩
  · rw [hs.2.2.2.2.2.1]
    rfl
  · have := stuckScenarioB_loopCond s hs
    simpa [loopCond, hs.2.1] using this

theorem run_add (fuel k : Nat) (s s1 : Elevator) (h : run fuel s = some s1) :
    run (fuel + k) s = some s1 := by
  induction fuel generalizing s with
  | zero =>
    simp only [run] at h
    split at h
    · exact absurd h (by simp)
    · rename_i hc
      cases k with
      | zero => simp [run, hc, h]
      | succ k => simpa [run, hc] using h
  | succ n ih =>
    rw [Nat.add_right_comm]
    simp only [run] at h ⊢
    split at h
    · rename_i hc
      simp only [hc, if_true]
      cases ht : tick s with
      | none => simp [ht] at h
      | some s2 =>
        rw [ht] at h
        simpa using ih s2 h
    · rename_i hc
      simpa [hc] using h

theorem run_of_runFor (n : Nat) (s s1 : Elevator) (h : runFor n s = some s1)
    (hc : loopCond s1 = false) : run n s = some s1 := by
  induction n generalizing s with
  | zero =>
    simp only [runFor, Option.some.injEq] at h
    subst h
    simp [run, hc]
  | succ n ih =>
    simp only [runFor] at h
    split at h
    · rename_i hcs
      cases ht : tick s with
      | none => simp [ht] at h
      | some s2 =>
        rw [ht] at h
        simp only [run, hcs, if_true, ht]
        exact ih s2 h
    · exact absurd h (by simp)

theorem mainRun_of_simulate (startingFloor : Int) (regs : List (Int × Int)) (n fuel : Nat)
    (s : Elevator) (h : simulate startingFloor regs n = some s)
    (hc : isSimulationComplete s = true) (hfuel : n ≤ fuel) :
    mainRun startingFloor regs fuel = some s := by
  unfold simulate at h
  unfold mainRun
  cases hr : registerAll (newElevator startingFloor) regs with
  | none => simp [hr] at h
  | some s0 =>
    rw [hr] at h
    obtain ⟨k, rfl⟩ := Nat.exists_eq_add_of_le hfuel
    exact run_add n k s0 s (run_of_runFor n s0 s h (by simp [loopCond, hc]))

theorem runTrace_getElem (n : Nat) (s : Elevator) (k : Nat) (sk : Elevator)
    (h : (runTrace n s)[k]? = some sk) : runFor (k + 1) s = some sk := by
  induction n generalizing s k with
  | zero => simp [runTrace] at h
  | succ n ih =>
    simp only [runTrace] at h
    split at h
    · rename_i hc
      split at h
      · simp at h
      · rename_i s1 ht
        cases k with
        | zero =>
          simp only [List.getElem?_cons_zero, Option.some.injEq] at h
          subst h
          simp [runFor, hc, ht]
        | succ k =>
          simp only [List.getElem?_cons_succ] at h
          have := ih s1 k h
          rw [runFor]
          simp only [hc, if_true, ht, Option.some_bind]
          exact this
    · simp at h

theorem scenarioA_trace (f d : Int) (hf0 : 0 ≤ f) (hf9 : f ≤ 9) (hd0 : 0 ≤ d) (hd9 : d ≤ 9)
    (hne : d ≠ f) :
    (registerAll (newElevator f) [(f, d)]).map
        (fun s0 => (runTrace ((d - f).natAbs + 2) s0).map snapshot) =
      some ((List.range (d - f).natAbs).map (scenarioATravel f d) ++ [scenarioAFinal f d]) := by
  interval_cases f <;> interval_cases d <;> first | exact absurd rfl hne | decide!

/-- C9. Scenario A, generalised: for floors `f ≠ d` in 0..9, the car
started at `f` with the single registration (f→d) takes the passenger on
board in the first iteration at floor `f`; after `k` iterations, for
`1 ≤ k ≤ |d - f|`, it is `k` floors from `f` towards `d` with the passenger
on board; the iteration after that is the last one: the passenger gets off
at `d`, the car stays at `d`, and `run` returns with
`processedPassengers = totalPassengers = 1`. -/
theorem scenarioA_general (f d : Int) (hf0 : 0 ≤ f) (hf9 : f ≤ 9) (hd0 : 0 ≤ d) (hd9 : d ≤ 9)
    (hne : d ≠ f) :
    (∀ k : Nat, k < (d - f).natAbs →
        ∃ s, simulate f [(f, d)] (k + 1) = some s ∧
          s.currentFloor = f + ((k + 1 : Nat) : Int) * Int.sign (d - f) ∧
          s.passengers = [{ currentFloor := f, targetFloor := d, id := 1 }] ∧
          s.cout = [Event.added 1 f d, Event.boarding 1 f d]) ∧
      ∃ s, simulate f [(f, d)] ((d - f).natAbs + 1) = some s ∧
        (∀ fuel : Nat, (d - f).natAbs + 1 ≤ fuel → mainRun f [(f, d)] fuel = some s) ∧
        s.currentFloor = d ∧ s.passengers = [] ∧
        s.processedPassengers = 1 ∧ s.totalPassengers = 1 ∧
        s.cout = [Event.added 1 f d, Event.boarding 1 f d, Event.gettingOff 1 d] := by
  obtain ⟨s0, hs0, htr⟩ := Option.map_eq_some'.mp (scenarioA_trace f d hf0 hf9 hd0 hd9 hne)
  have hsim : ∀ (k : Nat) (sk : Elevator),
      (runTrace ((d - f).natAbs + 2) s0)[k]? = some sk →
        simulate f [(f, d)] (k + 1) = some sk := by
    intro k sk hk
    simp only [simulate, hs0, Option.some_bind]
    exact runTrace_getElem _ s0 k sk hk
  refine ⟨fun k hk => ?_, ?_⟩
  · have hget : ((runTrace ((d - f).natAbs + 2) s0).map snapshot)[k]? =
        some (scenarioATravel f d k) := by
      rw [htr, List.getElem?_append_left (by simpa using hk), List.getElem?_map,
        List.getElem?_range hk]
      rfl
    rw [List.getElem?_map] at hget
    obtain ⟨sk, hsk, hsnap⟩ := Option.map_eq_some'.mp hget
    exact ⟨sk, hsim k sk hsk, congrArg Snapshot.currentFloor hsnap,
      congrArg Snapshot.passengers hsnap, congrArg Snapshot.cout hsnap⟩
  · have hget : ((runTrace ((d - f).natAbs + 2) s0).map snapshot)[(d - f).natAbs]? =
        some (scenarioAFinal f d) := by
      rw [htr, List.getElem?_append_right (by simp)]
      simp
    rw [List.getElem?_map] at hget
    obtain ⟨s, hs, hsnap⟩ := Option.map_eq_some'.mp hget
    have hsome := hsim _ s hs
    exact ⟨s, hsome,
      fun fuel hfuel => mainRun_of_simulate f _ _ fuel s hsome
        (congrArg Snapshot.complete hsnap) hfuel,
      congrArg Snapshot.currentFloor hsnap, congrArg Snapshot.passengers hsnap,
      congrArg Snapshot.processedPassengers hsnap, congrArg Snapshot.totalPassengers hsnap,
      congrArg Snapshot.cout hsnap⟩

/-- Witness for C9: the spec's scenario A, one passenger (0→5) from floor 0,
five advances. -/
theorem scenarioA_general_witness :
    (∀ k : Nat, k < 5 →
        ∃ s, simulate 0 [(0, 5)] (k + 1) = some s ∧
          s.currentFloor = 0 + ((k + 1 : Nat) : Int) * 1 ∧
          s.passengers = [{ currentFloor := 0, targetFloor := 5, id := 1 }] ∧
          s.cout = [Event.added 1 0 5, Event.boarding 1 0 5]) ∧
      ∃ s, simulate 0 [(0, 5)] 6 = some s ∧
        (∀ fuel : Nat, 6 ≤ fuel → mainRun 0 [(0, 5)] fuel = some s) ∧
        s.currentFloor = 5 ∧ s.passengers = [] ∧
        s.processedPassengers = 1 ∧ s.totalPassengers = 1 ∧
        s.cout = [Event.added 1 0 5, Event.boarding 1 0 5, Event.gettingOff 1 5] :=
  scenarioA_general 0 5 (by decide) (by decide) (by decide) (by decide) (by decide)

theorem scenarioC_trace (n : Nat) (h10 : 10 ≤ n) (h20 : n ≤ 20) :
    (simulate 0 (List.replicate n (0, 9)) 0).map (fun s => s.waitingPassengers 0) =
        some (scenarioCPassengers 1 n) ∧
      (simulate 0 (List.replicate n (0, 9)) 1).map snapshot = some (scenarioCFirst n) ∧
      (simulate 0 (List.replicate n (0, 9)) (scenarioCIterations n)).map snapshot =
        some (scenarioCFinal n) ∧
      boardingsAt (scenarioCFirst n).cout = (List.range 9).map (fun k => ((k : Int) + 1, 0)) ∧
      boardingsAt (scenarioCFinal n).cout = (List.range n).map (fun k => ((k : Int) + 1, 0)) ∧
      gettingOffAt (scenarioCFinal n).cout =
        (List.range n).map (fun k => ((k : Int) + 1, 9)) ∧
      scenarioCPassengers 1 n = (List.range n).map
        (fun k => { currentFloor := 0, targetFloor := 9, id := (k : Int) + 1 }) ∧
      scenarioCPassengers 10 (n - 9) = (List.range (n - 9)).map
        (fun k => { currentFloor := 0, targetFloor := 9, id := (k : Int) + 10 }) := by
  interval_cases n <;> (refine ⟨?_, ?_, ?_, ?_, ?_, ?_, ?_, ?_⟩ <;> decide!)

/-- C10. Scenario C, generalised: with `n` passengers (0→9), `10 ≤ n ≤ 20`,
registered at floor 0 where the car starts, the first iteration takes
exactly the first nine registered passengers on board (ids 1..9, in order)
and leaves the other `n - 9` queued at floor 0 in registration order; the
loop exits after finitely many iterations with
`processedPassengers = totalPassengers = n`, every passenger having boarded
at floor 0 and got off at floor 9, in registration order. -/
theorem scenarioC_general (n : Nat) (h10 : 10 ≤ n) (h20 : n ≤ 20) :
    (∃ s0 s1, simulate 0 (List.replicate n (0, 9)) 0 = some s0 ∧
        simulate 0 (List.replicate n (0, 9)) 1 = some s1 ∧
        s0.waitingPassengers 0 = (List.range n).map
          (fun k => { currentFloor := 0, targetFloor := 9, id := (k : Int) + 1 }) ∧
        s1.passengers = (List.range 9).map
          (fun k => { currentFloor := 0, targetFloor := 9, id := (k : Int) + 1 }) ∧
        s1.waitingPassengers 0 = (List.range (n - 9)).map
          (fun k => { currentFloor := 0, targetFloor := 9, id := (k : Int) + 10 }) ∧
        boardingsAt s1.cout = (List.range 9).map (fun k => ((k : Int) + 1, 0))) ∧
      ∃ m s, simulate 0 (List.replicate n (0, 9)) m = some s ∧
        (∀ fuel : Nat, m ≤ fuel → mainRun 0 (List.replicate n (0, 9)) fuel = some s) ∧
        s.processedPassengers = n ∧ s.totalPassengers = n ∧ s.passengers = [] ∧
        s.waitingPassengers 0 = [] ∧
        boardingsAt s.cout = (List.range n).map (fun k => ((k : Int) + 1, 0)) ∧
        gettingOffAt s.cout = (List.range n).map (fun k => ((k : Int) + 1, 9)) := by
  obtain ⟨h0, h1, h2, hb1, hb2, hg2, hp1, hp2⟩ := scenarioC_trace n h10 h20
  obtain ⟨s0, hs0, hq0⟩ := Option.map_eq_some'.mp h0
  obtain ⟨s1, hs1, hsnap1⟩ := Option.map_eq_some'.mp h1
  obtain ⟨s, hs, hsnap⟩ := Option.map_eq_some'.mp h2
  have hw1 : s1.waitingPassengers 0 = scenarioCPassengers 10 (n - 9) := by
    have := congrArg (fun x => x.waiting.head?) hsnap1
    simpa [snapshot, scenarioCFirst, List.finRange] using this
  have hw : s.waitingPassengers 0 = [] := by
    have hrep : (List.replicate MAX_FLOORS ([] : List Passenger)).head? = some [] := rfl
    have := congrArg (fun x => x.waiting.head?) hsnap
    simpa [snapshot, scenarioCFinal, List.finRange, hrep] using this
  have hc1 : s1.cout = (scenarioCFirst n).cout := congrArg Snapshot.cout hsnap1
  have hc : s.cout = (scenarioCFinal n).cout := congrArg Snapshot.cout hsnap
  constructor
  · refine ⟨s0, s1, hs0, hs1, hq0.trans hp1, ?_, hw1.trans hp2, by rw [hc1, hb1]⟩
    have : s1.passengers = scenarioCPassengers 1 9 := congrArg Snapshot.passengers hsnap1
    rw [this]
    rfl
  · exact ⟨scenarioCIterations n, s, hs,
      fun fuel hfuel => mainRun_of_simulate 0 _ _ fuel s hs
        (congrArg Snapshot.complete hsnap) hfuel,
      congrArg Snapshot.processedPassengers hsnap, congrArg Snapshot.totalPassengers hsnap,
      congrArg Snapshot.passengers hsnap, hw, by rw [hc, hb2], by rw [hc, hg2]⟩

/-- Witness for C10: the spec's scenario C, ten passengers. -/
theorem scenarioC_general_witness :
    (∃ s0 s1, simulate 0 (List.replicate 10 (0, 9)) 0 = some s0 ∧
        simulate 0 (List.replicate 10 (0, 9)) 1 = some s1 ∧
        s0.waitingPassengers 0 = (List.range 10).map
          (fun k => { currentFloor := 0, targetFloor := 9, id := (k : Int) + 1 }) ∧
        s1.passengers = (List.range 9).map
          (fun k => { currentFloor := 0, targetFloor := 9, id := (k : Int) + 1 }) ∧
        s1.waitingPassengers 0 = (List.range (10 - 9)).map
          (fun k => { currentFloor := 0, targetFloor := 9, id := (k : Int) + 10 }) ∧
        boardingsAt s1.cout = (List.range 9).map (fun k => ((k : Int) + 1, 0))) ∧
      ∃ m s, simulate 0 (List.replicate 10 (0, 9)) m = some s ∧
        (∀ fuel : Nat, m ≤ fuel → mainRun 0 (List.replicate 10 (0, 9)) fuel = some s) ∧
        s.processedPassengers = (10 : Nat) ∧ s.totalPassengers = (10 : Nat) ∧
        s.passengers = [] ∧ s.waitingPassengers 0 = [] ∧
        boardingsAt s.cout = (List.range 10).map (fun k => ((k : Int) + 1, 0)) ∧
        gettingOffAt s.cout = (List.range 10).map (fun k => ((k : Int) + 1, 9)) :=
  scenarioC_general 10 (by decide) (by decide)

/-! ## Concrete reachable states -/

theorem reachable_of_simulate (startingFloor : Int) (regs : List (Int × Int)) (n : Nat)
    (s : Elevator) (h : simulate startingFloor regs n = some s) :
    Reachable startingFloor s := by
  unfold simulate at h
  cases hr : registerAll (newElevator startingFloor) regs with
  | none => simp [hr] at h
  | some s0 =>
    rw [hr] at h
    exact ⟨regs, n, s0, hr, h⟩

theorem simulate_eq_some_getD (startingFloor : Int) (regs : List (Int × Int)) (n : Nat)
    (s : Elevator) (h : (simulate startingFloor regs n).isSome = true) :
    simulate startingFloor regs n = some ((simulate startingFloor regs n).getD s) := by
  cases hs : simulate startingFloor regs n with
  | none => simp [hs] at h
  | some s1 => rfl

theorem reachable_scenarioBStart : Reachable 5 scenarioBStart :=
  reachable_of_simulate 5 [(0, 9), (9, 0)] 0 _ (simulate_eq_some_getD _ _ _ _ (by decide!))

theorem reachable_scenarioCFirstStop : Reachable 0 scenarioCFirstStop :=
  reachable_of_simulate 0 (List.replicate 10 (0, 9)) 1 _
    (simulate_eq_some_getD _ _ _ _ (by decide!))

theorem reachable_scenarioCFirstTrip : Reachable 0 scenarioCFirstTrip :=
  reachable_of_simulate 0 (List.replicate 10 (0, 9)) 10 _
    (simulate_eq_some_getD _ _ _ _ (by decide!))

/-- Witness for C2: scenario B before the loop starts (floor 5, IDLE, queues
at floors 0 and 9). -/
theorem tick_idle_tie_break_witness :
    ∃ s1, tick scenarioBStart = some s1 ∧ s1.direction = Direction.DOWN ∧
      s1.currentFloor = scenarioBStart.currentFloor - 1 :=
  tick_idle_tie_break scenarioBStart (by decide!) (by decide!) (by decide!)
    ⟨9, by decide!, by decide!⟩ ⟨0, by decide!, by decide!⟩

/-- Witness for C3: scenario C with ten passengers after the first iteration,
when the car is full. -/
theorem capacity_invariant_witness :
    scenarioCFirstStop.passengers.length = 9 ∧
      (scenarioCFirstStop.passengers.length ≤ 9 ∧
        ∀ i : Fin MAX_FLOORS,
          (board (disembark scenarioCFirstStop) i).passengers.length ≤ 9) :=
  ⟨by decide!, capacity_invariant 0 scenarioCFirstStop reachable_scenarioCFirstStop⟩

/-- Witness for C8: scenario C with ten passengers after the first trip, nine
of ten processed. -/
theorem processed_le_total_witness :
    scenarioCFirstTrip.processedPassengers = 9 ∧ scenarioCFirstTrip.totalPassengers = 10 ∧
      scenarioCFirstTrip.processedPassengers ≤ scenarioCFirstTrip.totalPassengers :=
  ⟨by decide!, by decide!, processed_le_total 0 scenarioCFirstTrip reachable_scenarioCFirstTrip⟩

/-- Witness for C7: scenario C with ten passengers after the first iteration:
nine ids on board, the tenth queued. -/
theorem exclusive_location_witness :
    locatedIds scenarioCFirstStop = [10, 1, 2, 3, 4, 5, 6, 7, 8, 9] ∧
      ((locatedIds scenarioCFirstStop).Nodup ∧
        ∀ x, x ∈ registeredIds scenarioCFirstStop → x ∉ disembarkedIds scenarioCFirstStop →
          (locatedIds scenarioCFirstStop).count x = 1) :=
  ⟨by decide!, exclusive_location 0 scenarioCFirstStop reachable_scenarioCFirstStop⟩

/-- Witness for C6: scenario C with ten passengers after the first iteration:
heading UP with nine destinations above. -/
theorem direction_continuation_witness :
    ∃ s1, tick scenarioCFirstStop = some s1 ∧ s1.direction = Direction.UP :=
  ((direction_continuation 0 scenarioCFirstStop reachable_scenarioCFirstStop).1
    (by decide!) (by decide!)).2 (by decide) (by decide)

/-- C11. In every state reachable by registrations followed by iterations of
the loop, `isSimulationComplete` is true exactly when
`processedPassengers = totalPassengers` and nobody is on board: the `>=` of
the code never differs from equality there. -/
theorem isSimulationComplete_iff (startingFloor : Int) (s : Elevator)
    (h : Reachable startingFloor s) :
    isSimulationComplete s = true ↔
      s.processedPassengers = s.totalPassengers ∧ s.passengers = [] := by
  have hle := (reachable_conservation startingFloor s h).1
  simp only [isSimulationComplete, Bool.and_eq_true, decide_eq_true_eq, List.isEmpty_iff]
  constructor
  · rintro ⟨h1, h2⟩
    exact ⟨by omega, h2⟩
  · rintro ⟨h1, h2⟩
    exact ⟨by omega, h2⟩

/-- C13. Disembark step: for every state, after the disembark step the
onboard list is the previous one without the passengers whose destination is
the current floor, the others in their order; `processedPassengers` has
grown by the number of passengers removed; the waiting queues,
`totalPassengers` and `currentFloor` are unchanged. -/
theorem disembark_step (s : Elevator) :
    (disembark s).passengers =
        s.passengers.filter (fun p => decide (p.targetFloor ≠ s.currentFloor)) ∧
      (disembark s).processedPassengers =
        s.processedPassengers +
          ((s.passengers.length - (disembark s).passengers.length : Nat) : Int) ∧
      (disembark s).processedPassengers =
        s.processedPassengers +
          ((s.passengers.filter
            (fun p => decide (p.targetFloor = s.currentFloor))).length : Int) ∧
      (disembark s).waitingPassengers = s.waitingPassengers ∧
      (disembark s).totalPassengers = s.totalPassengers ∧
      (disembark s).currentFloor = s.currentFloor := by
  have h1 := disembark_passengers s
  have h2 : (disembark s).processedPassengers = _ :=
    disembarkLoop_processed s.currentFloor s.passengers s.processedPassengers s.cout
  have h3 := filter_length_add s.passengers s.currentFloor
  refine ⟨h1, ?_, h2, rfl, rfl, rfl⟩
  rw [h2, h1]
  congr 1
  omega

/-- C15. Registration: for `fromFloor` in 0..9 and any `toFloor` (so in
particular for `toFloor` in 0..9 different from `fromFloor`), `addPassenger`
is defined, appends one new passenger with `currentFloor = fromFloor` and
`targetFloor = toFloor` to the back of the waiting queue at `fromFloor`, whose
contents and order are otherwise kept, and adds one to `totalPassengers`;
every other queue, the onboard list, `currentFloor`, `direction` and
`processedPassengers` are unchanged. -/
theorem addPassenger_frame (s : Elevator) (fromFloor toFloor : Int)
    (hf0 : 0 ≤ fromFloor) (hf9 : fromFloor ≤ 9) :
    ∃ (i : Fin MAX_FLOORS) (s1 : Elevator),
      ((i : Nat) : Int) = fromFloor ∧ addPassenger s fromFloor toFloor = some s1 ∧
      s1.waitingPassengers i = s.waitingPassengers i ++
        [{ currentFloor := fromFloor, targetFloor := toFloor, id := s.nextId }] ∧
      s1.totalPassengers = s.totalPassengers + 1 ∧
      (∀ j, j ≠ i → s1.waitingPassengers j = s.waitingPassengers j) ∧
      s1.passengers = s.passengers ∧ s1.currentFloor = s.currentFloor ∧
      s1.direction = s.direction ∧ s1.processedPassengers = s.processedPassengers := by
  obtain ⟨i, hi, hic⟩ := floorIndex_some_of_range fromFloor hf0 (by omega)
  refine ⟨i,
    { s with
      waitingPassengers := Function.update s.waitingPassengers i
        (s.waitingPassengers i ++
          [{ currentFloor := fromFloor, targetFloor := toFloor, id := s.nextId }])
      nextId := s.nextId + 1
      totalPassengers := s.totalPassengers + 1
      cout := s.cout ++ [Event.added (s.nextId + 1 - 1) fromFloor toFloor] },
    hic, by simp only [addPassenger, hi], ?_, rfl, ?_, rfl, rfl, rfl, rfl⟩
  · simp
  · intro j hj
    simp [Function.update_noteq hj]

/-- C19. Passenger conservation: in every state reachable by registrations
followed by iterations of the loop, `processedPassengers` plus the number of
onboard passengers plus the sum of the sizes of the ten waiting queues equals
`totalPassengers`. -/
theorem passenger_conservation (startingFloor : Int) (s : Elevator)
    (h : Reachable startingFloor s) :
    s.processedPassengers + (s.passengers.length : Int) + (waitingCount s : Int) =
      s.totalPassengers :=
  (reachable_conservation startingFloor s h).1

theorem waitingCount_eq_zero (s : Elevator) (h : waitingCount s = 0) :
    ∀ i : Fin MAX_FLOORS, s.waitingPassengers i = [] := by
  intro i
  unfold waitingCount at h
  rw [List.sum_eq_zero_iff] at h
  have := h (s.waitingPassengers i).length
    (List.mem_map.mpr ⟨i, List.mem_finRange i, rfl⟩)
  exact List.length_eq_zero.mp this

theorem reachable_complete_empty (startingFloor : Int) (s : Elevator)
    (h : Reachable startingFloor s) (hc : isSimulationComplete s = true) :
    (∀ i : Fin MAX_FLOORS, s.waitingPassengers i = []) ∧ s.passengers = [] ∧
      s.processedPassengers = s.totalPassengers := by
  have hcons := (reachable_conservation startingFloor s h).1
  simp only [isSimulationComplete, Bool.and_eq_true, decide_eq_true_eq,
    List.isEmpty_iff] at hc
  obtain ⟨hge, hp⟩ := hc
  rw [hp] at hcons
  simp only [List.length_nil, Nat.cast_zero, add_zero] at hcons
  have hw : waitingCount s = 0 := by omega
  exact ⟨waitingCount_eq_zero s hw, hp, by omega⟩

theorem reachable_running (startingFloor : Int) (s : Elevator)
    (h : Reachable startingFloor s) : s.running = true := by
  refine reachable_invariant (fun s => s.running = true) startingFloor rfl ?_ ?_ s h
  · intro s s1 f t hs ha
    obtain ⟨i, -, rfl⟩ := addPassenger_eq_some s s1 f t ha
    exact hs
  · intro s s1 hs _ ht
    obtain ⟨i, -, rfl⟩ := tick_eq_some s s1 ht
    simpa using hs

theorem run_eq_some (fuel : Nat) (s s1 : Elevator) (h : run fuel s = some s1) :
    ∃ n, runFor n s = some s1 ∧ loopCond s1 = false := by
  induction fuel generalizing s with
  | zero =>
    simp only [run] at h
    split at h
    · exact absurd h (by simp)
    · rename_i hc
      simp only [Option.some.injEq] at h
      subst h
      exact ⟨0, rfl, by simpa using hc⟩
  | succ fuel ih =>
    simp only [run] at h
    split at h
    · rename_i hc
      cases ht : tick s with
      | none => simp [ht] at h
      | some s2 =>
        rw [ht] at h
        obtain ⟨n, hn, hl⟩ := ih s2 h
        exact ⟨n + 1, by simp [runFor, hc, ht, hn], hl⟩
    · rename_i hc
      simp only [Option.some.injEq] at h
      subst h
      exact ⟨0, rfl, by simpa using hc⟩

/-- C20. Normal exit means nobody is left behind: in every reachable state in
which `isSimulationComplete` is true, the ten waiting queues and the onboard
list are empty and every registered passenger has been processed; so
whenever `run` returns after the registrations of `main`, nobody is waiting
or on board in the state it returns in. -/
theorem complete_implies_nobody_waiting (startingFloor : Int) (s : Elevator)
    (h : Reachable startingFloor s) (hc : isSimulationComplete s = true) :
    ((∀ i : Fin MAX_FLOORS, s.waitingPassengers i = []) ∧ s.passengers = [] ∧
        s.processedPassengers = s.totalPassengers) ∧
      ∀ (regs : List (Int × Int)) (fuel : Nat) (s1 : Elevator),
        mainRun startingFloor regs fuel = some s1 →
          (∀ i : Fin MAX_FLOORS, s1.waitingPassengers i = []) ∧ s1.passengers = [] ∧
            s1.processedPassengers = s1.totalPassengers := by
  refine ⟨reachable_complete_empty startingFloor s h hc, ?_⟩
  intro regs fuel s1 hrun
  unfold mainRun at hrun
  cases hr : registerAll (newElevator startingFloor) regs with
  | none => simp [hr] at hrun
  | some s0 =>
    rw [hr] at hrun
    obtain ⟨n, hn, hl⟩ := run_eq_some fuel s0 s1 hrun
    have hreach : Reachable startingFloor s1 := ⟨regs, n, s0, hr, hn⟩
    have hrunning := reachable_running startingFloor s1 hreach
    have hcomplete : isSimulationComplete s1 = true := by
      simpa [loopCond, hrunning] using hl
    exact reachable_complete_empty startingFloor s1 hreach hcomplete

/-! ## Boarding order and stop eligibility -/

theorem directionCompatible_iff (dir : Direction) (floor : Int) (p : Passenger) :
    ((dir = Direction.UP ∧ p.targetFloor > floor) ∨
        (dir = Direction.DOWN ∧ p.targetFloor < floor) ∨ dir = Direction.IDLE) ↔
      directionCompatible dir floor p := by
  cases dir <;> simp [directionCompatible]

theorem boardLoop_maximal (cur : Int) (dir : Direction) (q onboard : List Passenger)
    (out : List Event) :
    ∃ k : Nat, k ≤ q.length ∧ k ≤ 9 - onboard.length ∧
      (∀ p ∈ q.take k, directionCompatible dir cur p) ∧
      (k = q.length ∨ 9 ≤ onboard.length + k ∨
        ∃ p, q[k]? = some p ∧ ¬directionCompatible dir cur p) ∧
      (boardLoop cur dir q onboard out).2.1 = onboard ++ q.take k ∧
      (boardLoop cur dir q onboard out).1 = q.drop k := by
  induction q generalizing onboard out with
  | nil => exact ⟨0, by simp [boardLoop]⟩
  | cons front rest ih =>
    unfold boardLoop
    split
    · rename_i hlt
      split
      · rename_i hc
        obtain ⟨k, h1, h2, h3, h4, h5, h6⟩ := ih (onboard ++ [front])
          (out ++ [Event.boarding front.id cur front.targetFloor])
        simp only [List.length_append, List.length_singleton] at h2 h4
        have hlt2 : onboard.length < 9 := hlt
        refine ⟨k + 1, by simpa using h1, by omega, ?_, ?_, by simp [h5], by simp [h6]⟩
        · intro p hp
          simp only [List.take_succ_cons, List.mem_cons] at hp
          rcases hp with rfl | hp
          · exact (directionCompatible_iff dir cur p).mp hc
          · exact h3 p hp
        · rcases h4 with h4 | h4 | h4
          · exact Or.inl (by simp [h4])
          · exact Or.inr (Or.inl (by omega))
          · exact Or.inr (Or.inr (by simpa using h4))
      · rename_i hc
        refine ⟨0, by simp, by simp, by simp, Or.inr (Or.inr ⟨front, by simp, ?_⟩),
          by simp, by simp⟩
        exact fun h => hc ((directionCompatible_iff dir cur front).mpr h)
    · rename_i hlt
      have hge : 9 ≤ onboard.length := Nat.le_of_not_lt hlt
      exact ⟨0, by simp, by simp, by simp, Or.inr (Or.inl (by simpa using hge)), by simp,
        by simp⟩

/-- C12. Boarding is strict FIFO with no skip-ahead: for a state with the
current floor in 0..9 the iteration of the loop is defined and its boarding
step moves exactly the first `k` passengers of the current floor's queue, in
queue order, to the back of the onboard list left by the disembark step,
where `k` is the largest number such that `k` is at most 9 minus the onboard
size after disembarking (zero if that size exceeds 9) and each of the first
`k` passengers is direction-compatible with the direction at the top of the
iteration; the queue afterwards is the old queue without its first `k`
elements and the queues of all other floors are unchanged. -/
theorem boarding_fifo (s : Elevator) (h0 : 0 ≤ s.currentFloor) (h9 : s.currentFloor ≤ 9) :
    ∃ (i : Fin MAX_FLOORS) (s1 : Elevator) (k : Nat),
      ((i : Nat) : Int) = s.currentFloor ∧ tick s = some s1 ∧
      k ≤ (s.waitingPassengers i).length ∧
      k ≤ 9 - (disembark s).passengers.length ∧
      (∀ p ∈ (s.waitingPassengers i).take k,
        directionCompatible s.direction s.currentFloor p) ∧
      (∀ k1 : Nat, k1 ≤ (s.waitingPassengers i).length →
        k1 ≤ 9 - (disembark s).passengers.length →
        (∀ p ∈ (s.waitingPassengers i).take k1,
          directionCompatible s.direction s.currentFloor p) → k1 ≤ k) ∧
      s1.passengers = (disembark s).passengers ++ (s.waitingPassengers i).take k ∧
      s1.waitingPassengers i = (s.waitingPassengers i).drop k ∧
      ∀ j, j ≠ i → s1.waitingPassengers j = s.waitingPassengers j := by
  obtain ⟨i, hi, hic⟩ := floorIndex_some_of_range s.currentFloor h0 (by omega)
  obtain ⟨k, h1, h2, h3, h4, h5, h6⟩ := boardLoop_maximal (disembark s).currentFloor
    (disembark s).direction ((disembark s).waitingPassengers i) (disembark s).passengers
    (disembark s).cout
  simp only [disembark_currentFloor, disembark_direction, disembark_waitingPassengers]
    at h1 h3 h4 h5 h6
  refine ⟨i, _, k, hic, tick_eq s i hi, h1, h2, h3, ?_, ?_, ?_, ?_⟩
  · intro k1 hk1 hcap hall
    by_contra hgt
    have hlt : k < k1 := Nat.lt_of_not_le hgt
    rcases h4 with h4 | h4 | ⟨p, hp, hnc⟩
    · omega
    · omega
    · apply hnc
      apply hall p
      apply List.getElem?_mem (n := k)
      rw [List.getElem?_take_of_lt hlt]
      exact hp
  · simp only [move_passengers, redirect_passengers]
    exact h5
  · simp only [move_waitingPassengers, redirect_waitingPassengers]
    show Function.update _ i _ i = _
    rw [Function.update_same]
    exact h6
  · intro j hj
    simp only [move_waitingPassengers, redirect_waitingPassengers]
    exact board_waitingPassengers_of_ne _ i j hj

theorem shouldStopAtFloor_true_iff (s : Elevator) (floor : Int) (i : Fin MAX_FLOORS)
    (hi : floorIndex floor = some i) :
    (∃ b, shouldStopAtFloor s floor = some b) ∧
      (shouldStopAtFloor s floor = some true ↔
        mustStopAt s floor (s.waitingPassengers i)) := by
  unfold shouldStopAtFloor mustStopAt
  by_cases ha : ∃ p ∈ s.passengers, p.targetFloor = floor
  · have hany : s.passengers.any (fun passenger => decide (passenger.targetFloor = floor)) =
        true := by
      simpa [List.any_eq_true] using ha
    simp [hany, ha]
  · have hany : s.passengers.any (fun passenger => decide (passenger.targetFloor = floor)) =
        false := by
      rw [Bool.eq_false_iff]
      intro h
      apply ha
      simpa [List.any_eq_true] using h
    simp only [hany, hi, ha, false_or, Bool.false_eq_true, if_false]
    cases hq : s.waitingPassengers i with
    | nil => simp
    | cons front rest =>
      simp only [ne_eq, not_false_eq_true, List.head?_cons, Option.mem_def,
        Option.some.injEq, forall_eq', true_and, reduceCtorEq]
      by_cases hlen : s.passengers.length < 9
      · by_cases hc : directionCompatible s.direction floor front
        · have := (directionCompatible_iff s.direction floor front).mpr hc
          simp [hlen, hc, this]
        · have : ¬((s.direction = Direction.UP ∧ front.targetFloor > floor) ∨
              (s.direction = Direction.DOWN ∧ front.targetFloor < floor) ∨
              s.direction = Direction.IDLE) :=
            fun h => hc ((directionCompatible_iff s.direction floor front).mp h)
          simp [hlen, hc, this]
      · simp [hlen]

/-- C14. Stop eligibility: for every floor in 0..9 and every state,
`shouldStopAtFloor(floor)` returns, and returns true exactly when (a) some
onboard passenger has `targetFloor = floor`, or (b) the waiting queue at
`floor` is non-empty, fewer than 9 passengers are on board and the queue's
front passenger is direction-compatible; replacing the queue at `floor` by
any queue with the same front element (or by another empty queue) does not
change the result. -/
theorem shouldStopAtFloor_spec (s : Elevator) (floor : Int) (h0 : 0 ≤ floor)
    (h9 : floor ≤ 9) :
    ∃ i : Fin MAX_FLOORS, ((i : Nat) : Int) = floor ∧
      (∃ b, shouldStopAtFloor s floor = some b) ∧
      (shouldStopAtFloor s floor = some true ↔ mustStopAt s floor (s.waitingPassengers i)) ∧
      ∀ q : List Passenger, q.head? = (s.waitingPassengers i).head? →
        shouldStopAtFloor
            { s with waitingPassengers := Function.update s.waitingPassengers i q } floor =
          shouldStopAtFloor s floor := by
  obtain ⟨i, hi, hic⟩ := floorIndex_some_of_range floor h0 (by omega)
  obtain ⟨hdef, hiff⟩ := shouldStopAtFloor_true_iff s floor i hi
  refine ⟨i, hic, hdef, hiff, ?_⟩
  intro q hq
  obtain ⟨⟨b, hb⟩, hiff2⟩ := shouldStopAtFloor_true_iff
    { s with waitingPassengers := Function.update s.waitingPassengers i q } floor i hi
  obtain ⟨b1, hb1⟩ := hdef
  have hsame : mustStopAt
      { s with waitingPassengers := Function.update s.waitingPassengers i q } floor
        (Function.update s.waitingPassengers i q i) ↔
      mustStopAt s floor (s.waitingPassengers i) := by
    simp only [Function.update_same]
    unfold mustStopAt
    have hne : q ≠ [] ↔ s.waitingPassengers i ≠ [] := by
      cases q <;> cases hw : s.waitingPassengers i <;> simp [hw] at hq ⊢
    rw [hq, hne]
  rw [hb, hb1]
  have h1 : (b = true ↔ b1 = true) := by
    have e1 := hiff2
    have e2 := hiff
    rw [hb] at e1
    rw [hb1] at e2
    simp only [Option.some.injEq] at e1 e2
    exact e1.trans (hsame.trans e2.symm)
  congr 1
  cases b <;> cases b1 <;> simp_all

theorem boardLoop_grows_iff (cur : Int) (dir : Direction) (q onboard : List Passenger)
    (out : List Event) :
    onboard.length < (boardLoop cur dir q onboard out).2.1.length ↔
      (q ≠ [] ∧ onboard.length < 9 ∧ ∀ front ∈ q.head?, directionCompatible dir cur front) := by
  obtain ⟨k, h1, h2, h3, h4, h5, -⟩ := boardLoop_maximal cur dir q onboard out
  rw [h5, List.length_append, List.length_take, Nat.min_eq_left h1]
  cases q with
  | nil => simp at h1 ⊢; omega
  | cons front rest =>
    simp only [ne_eq, reduceCtorEq, not_false_eq_true, List.head?_cons, Option.mem_def,
      Option.some.injEq, forall_eq', true_and]
    constructor
    · intro hk
      have hk1 : 0 < k := by omega
      refine ⟨by omega, h3 front ?_⟩
      obtain ⟨m, rfl⟩ := Nat.exists_eq_succ_of_ne_zero (Nat.pos_iff_ne_zero.mp hk1)
      simp
    · rintro ⟨hlt, hc⟩
      by_contra hk
      have hk0 : k = 0 := by omega
      subst hk0
      rcases h4 with h4 | h4 | ⟨p, hp, hnc⟩
      · simp at h4
      · omega
      · simp only [List.getElem?_cons_zero, Option.some.injEq] at hp
        subst hp
        exact hnc hc

theorem disembark_shrinks_iff (s : Elevator) :
    (disembark s).passengers.length < s.passengers.length ↔
      ∃ p ∈ s.passengers, p.targetFloor = s.currentFloor := by
  have h := filter_length_add s.passengers s.currentFloor
  rw [disembark_passengers]
  have hpos : 0 < (s.passengers.filter (fun p => decide (p.targetFloor = s.currentFloor))).length ↔
      ∃ p ∈ s.passengers, p.targetFloor = s.currentFloor := by
    rw [List.length_pos]
    constructor
    · intro hne
      obtain ⟨p, hp⟩ := List.exists_mem_of_ne_nil _ hne
      rw [List.mem_filter] at hp
      exact ⟨p, hp.1, by simpa using hp.2⟩
    · rintro ⟨p, hp, ht⟩ hnil
      have hmem : p ∈ s.passengers.filter
          (fun p => decide (p.targetFloor = s.currentFloor)) :=
        List.mem_filter.mpr ⟨hp, by simpa using ht⟩
      rw [hnil] at hmem
      simp at hmem
  rw [← hpos]
  omega

/-- C17. The unused predicate agrees with the live loop: for every state with
the current floor in 0..9 (whatever the onboard size, so in particular for
at most 9 on board), the iteration of the loop is defined,
`shouldStopAtFloor(currentFloor)` evaluated at its top returns, and it returns
true exactly when the disembark step removes at least one passenger or the
boarding step takes at least one on board. -/
theorem shouldStopAtFloor_agrees_with_tick (s : Elevator) (h0 : 0 ≤ s.currentFloor)
    (h9 : s.currentFloor ≤ 9) :
    ∃ (i : Fin MAX_FLOORS) (s1 : Elevator),
      ((i : Nat) : Int) = s.currentFloor ∧ tick s = some s1 ∧
      s1.passengers = (board (disembark s) i).passengers ∧
      (∃ b, shouldStopAtFloor s s.currentFloor = some b) ∧
      (shouldStopAtFloor s s.currentFloor = some true ↔
        (disembark s).passengers.length < s.passengers.length ∨
          (disembark s).passengers.length < (board (disembark s) i).passengers.length) := by
  obtain ⟨i, hi, hic⟩ := floorIndex_some_of_range s.currentFloor h0 (by omega)
  obtain ⟨hdef, hiff⟩ := shouldStopAtFloor_true_iff s s.currentFloor i hi
  refine ⟨i, _, hic, tick_eq s i hi, by simp, hdef, ?_⟩
  rw [hiff, disembark_shrinks_iff]
  have hgrow := boardLoop_grows_iff (disembark s).currentFloor (disembark s).direction
    ((disembark s).waitingPassengers i) (disembark s).passengers (disembark s).cout
  simp only [disembark_currentFloor, disembark_direction, disembark_waitingPassengers]
    at hgrow
  have hb : (board (disembark s) i).passengers =
      (boardLoop s.currentFloor s.direction (s.waitingPassengers i) (disembark s).passengers
        (disembark s).cout).2.1 := rfl
  rw [hb, hgrow]
  unfold mustStopAt
  by_cases ha : ∃ p ∈ s.passengers, p.targetFloor = s.currentFloor
  · simp [ha]
  · have hsame : (disembark s).passengers.length = s.passengers.length := by
      have := (disembark_shrinks_iff s).not.mpr ha
      have := disembark_length_le s
      omega
    rw [hsame]

/-! ## Floor bounds and the clamp of the move step -/

/-- C16. Floor bounds and step size: for a starting floor in 0..9, every
reachable state has its current floor in 0..9, and the next iteration of the
loop is defined and changes the current floor by at most one: it goes up by
one only when the redirected direction is UP, down by one only when it is
DOWN, and stays where it is when the redirected direction is IDLE. -/
theorem floor_bounds_and_step (startingFloor : Int) (hs0 : 0 ≤ startingFloor)
    (hs9 : startingFloor ≤ 9) (s : Elevator) (h : Reachable startingFloor s) :
    0 ≤ s.currentFloor ∧ s.currentFloor ≤ 9 ∧
      ∃ s1, tick s = some s1 ∧
        (s1.currentFloor = s.currentFloor ∨ s1.currentFloor = s.currentFloor + 1 ∨
          s1.currentFloor = s.currentFloor - 1) ∧
        (s1.currentFloor = s.currentFloor + 1 → s1.direction = Direction.UP) ∧
        (s1.currentFloor = s.currentFloor - 1 → s1.direction = Direction.DOWN) ∧
        (s1.direction = Direction.IDLE → s1.currentFloor = s.currentFloor) ∧
        0 ≤ s1.currentFloor ∧ s1.currentFloor ≤ 9 := by
  obtain ⟨hlo, hhi⟩ := reachable_floor_range startingFloor hs0 hs9 s h
  obtain ⟨i, hi, -⟩ := floorIndex_some_of_range s.currentFloor hlo (by omega)
  refine ⟨hlo, hhi, _, tick_eq s i hi, ?_⟩
  generalize hr : redirect (board (disembark s) i) = r
  have hrc : r.currentFloor = s.currentFloor := by rw [← hr]; simp
  rw [move_currentFloor, move_direction, hrc]
  cases hd : r.direction <;> simp <;> (try split_ifs) <;> omega

theorem decisionTable_eq_up (d : Direction) (a b : Bool)
    (h : decisionTable d a b = Direction.UP) : a = true := by
  cases d <;> cases a <;> cases b <;> simp [decisionTable] at h ⊢

theorem decisionTable_eq_down (d : Direction) (a b : Bool)
    (h : decisionTable d a b = Direction.DOWN) : b = true := by
  cases d <;> cases a <;> cases b <;> simp [decisionTable] at h ⊢

theorem registerAll_invariant_valid (P : Elevator → Prop)
    (hadd : ∀ s s1 f t, 0 ≤ t → t ≤ 9 → P s → addPassenger s f t = some s1 → P s1)
    (regs : List (Int × Int)) (hv : ValidRegistrations regs) (s s0 : Elevator) (hs : P s)
    (h : registerAll s regs = some s0) : P s0 := by
  induction regs generalizing s with
  | nil =>
    simp only [registerAll, Option.some.injEq] at h
    exact h ▸ hs
  | cons r rest ih =>
    obtain ⟨f, t⟩ := r
    have hr := hv (f, t) (by simp)
    have hrest : ValidRegistrations rest := fun r hr => hv r (by simp [hr])
    simp only [registerAll] at h
    cases ha : addPassenger s f t with
    | none => simp [ha] at h
    | some s1 =>
      rw [ha] at h
      exact ih hrest s1 (hadd s s1 f t hr.2.2.1 hr.2.2.2 hs ha) h

theorem reachableValid_invariant (P : Elevator → Prop) (startingFloor : Int)
    (hinit : P (newElevator startingFloor))
    (hadd : ∀ s s1 f t, 0 ≤ t → t ≤ 9 → P s → addPassenger s f t = some s1 → P s1)
    (htick : ∀ s s1, P s → loopCond s = true → tick s = some s1 → P s1)
    (s : Elevator) (h : ReachableValid startingFloor s) : P s := by
  obtain ⟨regs, n, hv, hsim⟩ := h
  unfold simulate at hsim
  cases hr : registerAll (newElevator startingFloor) regs with
  | none => simp [hr] at hsim
  | some s0 =>
    rw [hr] at hsim
    exact runFor_invariant P htick n s0 s
      (registerAll_invariant_valid P hadd regs hv _ s0 hinit hr) hsim

theorem reachable_of_reachableValid (startingFloor : Int) (s : Elevator)
    (h : ReachableValid startingFloor s) : Reachable startingFloor s := by
  obtain ⟨regs, n, -, hsim⟩ := h
  exact reachable_of_simulate startingFloor regs n s hsim

theorem targetsValid_board_disembark (s : Elevator) (i : Fin MAX_FLOORS)
    (hs : TargetsValid s) : TargetsValid (board (disembark s) i) := by
  obtain ⟨k, -, hp, hw, -⟩ := board_spec (disembark s) i
  simp only [disembark_waitingPassengers] at hp hw
  unfold TargetsValid
  rw [hp, hw]
  refine ⟨fun p hmem => ?_, fun j p hmem => ?_⟩
  · rw [List.mem_append] at hmem
    rcases hmem with hmem | hmem
    · rw [disembark_passengers] at hmem
      exact hs.1 p (List.mem_filter.mp hmem).1
    · exact hs.2 i p (List.mem_of_mem_take hmem)
  · by_cases hj : j = i
    · subst hj
      simp only [Function.update_same] at hmem
      exact hs.2 j p (List.mem_of_mem_drop hmem)
    · simp only [Function.update_noteq hj] at hmem
      exact hs.2 j p hmem

theorem reachableValid_targets (startingFloor : Int) (s : Elevator)
    (h : ReachableValid startingFloor s) : TargetsValid s := by
  refine reachableValid_invariant TargetsValid startingFloor ?_ ?_ ?_ s h
  · simp [TargetsValid, newElevator]
  · intro s s1 f t ht0 ht9 hs ha
    obtain ⟨i, -, rfl⟩ := addPassenger_eq_some s s1 f t ha
    refine ⟨hs.1, fun j p hp => ?_⟩
    by_cases hj : j = i
    · subst hj
      simp only [Function.update_same, List.mem_append, List.mem_singleton] at hp
      rcases hp with hp | rfl
      · exact hs.2 j p hp
      · exact ⟨ht0, ht9⟩
    · simp only [Function.update_noteq hj] at hp
      exact hs.2 j p hp
  · intro s s1 hs _ ht
    obtain ⟨i, -, rfl⟩ := tick_eq_some s s1 ht
    have hb := targetsValid_board_disembark s i hs
    exact ⟨by simpa using hb.1, by simpa using hb.2⟩

theorem aboveExists_lt_nine (s : Elevator) (hs : TargetsValid s) (h : aboveExists s) :
    s.currentFloor < 9 := by
  rcases h with ⟨p, hp, hgt⟩ | ⟨j, hj, -⟩
  · have := (hs.1 p hp).2
    omega
  · have hj10 : (j : Nat) < 10 := j.isLt
    omega

theorem belowExists_pos (s : Elevator) (hs : TargetsValid s) (h : belowExists s) :
    0 < s.currentFloor := by
  rcases h with ⟨p, hp, hlt⟩ | ⟨j, hj, -⟩
  · have := (hs.1 p hp).1
    omega
  · omega

theorem clamp_step (startingFloor : Int) (s s1 : Elevator)
    (h : ReachableValid startingFloor s) (ht : tick s = some s1) :
    (s1.direction = Direction.UP →
        s.currentFloor < 9 ∧ s1.currentFloor = s.currentFloor + 1) ∧
      (s1.direction = Direction.DOWN →
        0 < s.currentFloor ∧ s1.currentFloor = s.currentFloor - 1) ∧
      (s1.direction = Direction.IDLE → s1.currentFloor = s.currentFloor) := by
  have hprev := reachableValid_targets startingFloor s h
  obtain ⟨i, hi, rfl⟩ := tick_eq_some s s1 ht
  have hb := targetsValid_board_disembark s i hprev
  have hbc : (board (disembark s) i).currentFloor = s.currentFloor := by simp
  have hd := redirect_direction (board (disembark s) i)
  generalize hr : redirect (board (disembark s) i) = r at hd
  have hrc : r.currentFloor = s.currentFloor := by rw [← hr]; simp
  rw [move_currentFloor, move_direction, hrc]
  refine ⟨fun hup => ?_, fun hdown => ?_, fun hidle => ?_⟩
  · rw [hup] at hd
    have ha := decisionTable_eq_up _ _ _ hd.symm
    have hlt := aboveExists_lt_nine _ hb (of_decide_eq_true ha)
    rw [hbc] at hlt
    simp [hup, hlt]
  · rw [hdown] at hd
    have hbel := decisionTable_eq_down _ _ _ hd.symm
    have hpos := belowExists_pos _ hb (of_decide_eq_true hbel)
    rw [hbc] at hpos
    simp [hdown, hpos]
  · simp [hidle]

/-- C18. The clamp of the move step is never exercised: in every state
reachable by registrations with floors in 0..9 followed by iterations of the
loop, whenever the next iteration's redirect step yields UP the current
floor is below 9 and the car goes up one floor, and whenever it yields DOWN
the current floor is above 0 and the car goes down one floor (with IDLE it
stays); for a starting floor in 0..9 that iteration is defined. -/
theorem clamp_never_exercised (startingFloor : Int) (s : Elevator)
    (h : ReachableValid startingFloor s) :
    (∀ s1, tick s = some s1 →
        (s1.direction = Direction.UP →
          s.currentFloor < 9 ∧ s1.currentFloor = s.currentFloor + 1) ∧
        (s1.direction = Direction.DOWN →
          0 < s.currentFloor ∧ s1.currentFloor = s.currentFloor - 1) ∧
        (s1.direction = Direction.IDLE → s1.currentFloor = s.currentFloor)) ∧
      (0 ≤ startingFloor → startingFloor ≤ 9 →
        ∃ s1, tick s = some s1 ∧
          (s1.direction = Direction.UP →
            s.currentFloor < 9 ∧ s1.currentFloor = s.currentFloor + 1) ∧
          (s1.direction = Direction.DOWN →
            0 < s.currentFloor ∧ s1.currentFloor = s.currentFloor - 1) ∧
          (s1.direction = Direction.IDLE → s1.currentFloor = s.currentFloor)) := by
  refine ⟨fun s1 ht => clamp_step startingFloor s s1 h ht, fun h0 h9 => ?_⟩
  obtain ⟨hlo, hhi⟩ := reachable_floor_range startingFloor h0 h9 s
    (reachable_of_reachableValid startingFloor s h)
  obtain ⟨i, hi, -⟩ := floorIndex_some_of_range s.currentFloor hlo (by omega)
  exact ⟨_, tick_eq s i hi, clamp_step startingFloor s _ h (tick_eq s i hi)⟩

/-! ## Further concrete states -/

theorem reachable_scenarioAEnd : Reachable 0 scenarioAEnd :=
  reachable_of_simulate 0 [(0, 5)] 6 _ (simulate_eq_some_getD _ _ _ _ (by decide!))

theorem reachableValid_scenarioCFirstStop : ReachableValid 0 scenarioCFirstStop :=
  ⟨List.replicate 10 (0, 9), 1, by decide, simulate_eq_some_getD _ _ _ _ (by decide!)⟩

/-- Witness for C11: scenario A when the loop exits. -/
theorem isSimulationComplete_iff_witness :
    isSimulationComplete scenarioAEnd = true ∧
      (isSimulationComplete scenarioAEnd = true ↔
        scenarioAEnd.processedPassengers = scenarioAEnd.totalPassengers ∧
          scenarioAEnd.passengers = []) :=
  ⟨by decide!, isSimulationComplete_iff 0 scenarioAEnd reachable_scenarioAEnd⟩

/-- Witness for C12: scenario C with ten passengers before the loop starts;
nine of the ten queued passengers can board. -/
theorem boarding_fifo_witness :
    ∃ (i : Fin MAX_FLOORS) (s1 : Elevator) (k : Nat),
      ((i : Nat) : Int) = scenarioCStart.currentFloor ∧ tick scenarioCStart = some s1 ∧
      k ≤ (scenarioCStart.waitingPassengers i).length ∧
      k ≤ 9 - (disembark scenarioCStart).passengers.length ∧
      (∀ p ∈ (scenarioCStart.waitingPassengers i).take k,
        directionCompatible scenarioCStart.direction scenarioCStart.currentFloor p) ∧
      (∀ k1 : Nat, k1 ≤ (scenarioCStart.waitingPassengers i).length →
        k1 ≤ 9 - (disembark scenarioCStart).passengers.length →
        (∀ p ∈ (scenarioCStart.waitingPassengers i).take k1,
          directionCompatible scenarioCStart.direction scenarioCStart.currentFloor p) →
        k1 ≤ k) ∧
      s1.passengers =
        (disembark scenarioCStart).passengers ++ (scenarioCStart.waitingPassengers i).take k ∧
      s1.waitingPassengers i = (scenarioCStart.waitingPassengers i).drop k ∧
      ∀ j, j ≠ i → s1.waitingPassengers j = scenarioCStart.waitingPassengers j :=
  boarding_fifo scenarioCStart (by decide!) (by decide!)

/-- Witness for C14: floor 0 in scenario C before the loop starts. -/
theorem shouldStopAtFloor_spec_witness :
    ∃ i : Fin MAX_FLOORS, ((i : Nat) : Int) = 0 ∧
      (∃ b, shouldStopAtFloor scenarioCStart 0 = some b) ∧
      (shouldStopAtFloor scenarioCStart 0 = some true ↔
        mustStopAt scenarioCStart 0 (scenarioCStart.waitingPassengers i)) ∧
      ∀ q : List Passenger, q.head? = (scenarioCStart.waitingPassengers i).head? →
        shouldStopAtFloor
            { scenarioCStart with
              waitingPassengers := Function.update scenarioCStart.waitingPassengers i q } 0 =
          shouldStopAtFloor scenarioCStart 0 :=
  shouldStopAtFloor_spec scenarioCStart 0 (by decide) (by decide)

/-- Witness for C15: registering (0→5) on a new elevator at floor 0. -/
theorem addPassenger_frame_witness :
    ∃ (i : Fin MAX_FLOORS) (s1 : Elevator),
      ((i : Nat) : Int) = 0 ∧ addPassenger (newElevator 0) 0 5 = some s1 ∧
      s1.waitingPassengers i = (newElevator 0).waitingPassengers i ++
        [{ currentFloor := 0, targetFloor := 5, id := (newElevator 0).nextId }] ∧
      s1.totalPassengers = (newElevator 0).totalPassengers + 1 ∧
      (∀ j, j ≠ i → s1.waitingPassengers j = (newElevator 0).waitingPassengers j) ∧
      s1.passengers = (newElevator 0).passengers ∧
      s1.currentFloor = (newElevator 0).currentFloor ∧
      s1.direction = (newElevator 0).direction ∧
      s1.processedPassengers = (newElevator 0).processedPassengers :=
  addPassenger_frame (newElevator 0) 0 5 (by decide) (by decide)

/-- Witness for C16: scenario C with ten passengers after the first
iteration (floor 1, heading UP). -/
theorem floor_bounds_and_step_witness :
    0 ≤ scenarioCFirstStop.currentFloor ∧ scenarioCFirstStop.currentFloor ≤ 9 ∧
      ∃ s1, tick scenarioCFirstStop = some s1 ∧
        (s1.currentFloor = scenarioCFirstStop.currentFloor ∨
          s1.currentFloor = scenarioCFirstStop.currentFloor + 1 ∨
          s1.currentFloor = scenarioCFirstStop.currentFloor - 1) ∧
        (s1.currentFloor = scenarioCFirstStop.currentFloor + 1 →
          s1.direction = Direction.UP) ∧
        (s1.currentFloor = scenarioCFirstStop.currentFloor - 1 →
          s1.direction = Direction.DOWN) ∧
        (s1.direction = Direction.IDLE →
          s1.currentFloor = scenarioCFirstStop.currentFloor) ∧
        0 ≤ s1.currentFloor ∧ s1.currentFloor ≤ 9 :=
  floor_bounds_and_step 0 (by decide) (by decide) scenarioCFirstStop
    reachable_scenarioCFirstStop

/-- Witness for C17: scenario C with ten passengers before the loop starts. -/
theorem shouldStopAtFloor_agrees_with_tick_witness :
    ∃ (i : Fin MAX_FLOORS) (s1 : Elevator),
      ((i : Nat) : Int) = scenarioCStart.currentFloor ∧ tick scenarioCStart = some s1 ∧
      s1.passengers = (board (disembark scenarioCStart) i).passengers ∧
      (∃ b, shouldStopAtFloor scenarioCStart scenarioCStart.currentFloor = some b) ∧
      (shouldStopAtFloor scenarioCStart scenarioCStart.currentFloor = some true ↔
        (disembark scenarioCStart).passengers.length < scenarioCStart.passengers.length ∨
          (disembark scenarioCStart).passengers.length <
            (board (disembark scenarioCStart) i).passengers.length) :=
  shouldStopAtFloor_agrees_with_tick scenarioCStart (by decide!) (by decide!)

/-- Witness for C18: scenario C with ten passengers after the first
iteration: the redirect step yields UP at floor 1. -/
theorem clamp_never_exercised_witness :
    ∃ s1, tick scenarioCFirstStop = some s1 ∧
      (s1.direction = Direction.UP →
        scenarioCFirstStop.currentFloor < 9 ∧
          s1.currentFloor = scenarioCFirstStop.currentFloor + 1) ∧
      (s1.direction = Direction.DOWN →
        0 < scenarioCFirstStop.currentFloor ∧
          s1.currentFloor = scenarioCFirstStop.currentFloor - 1) ∧
      (s1.direction = Direction.IDLE →
        s1.currentFloor = scenarioCFirstStop.currentFloor) :=
  (clamp_never_exercised 0 scenarioCFirstStop reachableValid_scenarioCFirstStop).2
    (by decide) (by decide)

/-- Witness for C19: scenario C with ten passengers after the first trip:
nine processed, nobody on board, one waiting. -/
theorem passenger_conservation_witness :
    waitingCount scenarioCFirstTrip = 1 ∧
      scenarioCFirstTrip.processedPassengers +
          (scenarioCFirstTrip.passengers.length : Int) +
          (waitingCount scenarioCFirstTrip : Int) =
        scenarioCFirstTrip.totalPassengers :=
  ⟨by decide!, passenger_conservation 0 scenarioCFirstTrip reachable_scenarioCFirstTrip⟩

/-- Witness for C20: scenario A when the loop exits. -/
theorem complete_implies_nobody_waiting_witness :
    (∀ i : Fin MAX_FLOORS, scenarioAEnd.waitingPassengers i = []) ∧
      scenarioAEnd.passengers = [] ∧
      scenarioAEnd.processedPassengers = scenarioAEnd.totalPassengers :=
  (complete_implies_nobody_waiting 0 scenarioAEnd reachable_scenarioAEnd (by decide!)).1

end ElevatorSim
